import Mathlib

/-!
Value layer of the `cpp.2` interpreter (`src/impls/cpp.2/types.hpp`).

A shallow embedding of the value representation declared in `types.hpp`:
the tag enumeration `Type`, the two variant slots `DataType` and `Functor`,
the record `MalType` with its four constructors and its two comparison
operators, the arithmetic helpers of namespace `Types`, and the ordered
container `Map_t`.

Conventions of the embedding.

* A C++ `double` is the inductive type `double`: NaN, the two infinities, or a
  finite value `(-1)^neg * m * 2^e`.  Every finite binary64 number has this
  form (with `m < 2^53` and `-1074 ≤ e ≤ 971`); the comparisons below are exact
  on all such triples, `3.0` is `fin false 3 0` and `1.5` is `fin false 3 (-1)`.
* A `std::string` is its list of bytes (`List Nat`, each byte below 256).
* A `std::shared_ptr` is the address it holds (`Nat`, `0` for the null
  pointer); `==` and `<` on shared pointers compare addresses.
* A `std::function` is `Option Nat`: `none` for the empty wrapper, `some h`
  for a wrapper holding the host function registered under handle `h`.
* `std::vector<MalType>` is `List MalType`.  A `std::map<MalType, MalType>`
  held as a payload is the list of its entries in iteration order, which is
  what its comparisons read; as a container with `insert` and `find` it is the
  red-black tree `Rb_tree`.
* An exception is a value of `Exception` returned through `Except`.
-/

namespace Mal

/-! ## Tags -/

/-- The enumeration `enum class Type` (lines 21-35). -/
inductive Type_
  | FLOAT | INT | BOOL | LIST | VECTOR | MAP | NIL
  | SYMBOL | STRING | KEYWORD | BUILTIN | LAMBDA | ATOM
  deriving DecidableEq, Repr

/-! ## Doubles -/

/-- An IEEE 754 binary64 datum: NaN, a signed infinity, or the finite value
`(-1)^neg * m * 2^e`. -/
inductive double
  | nan
  | inf (neg : Bool)
  | fin (neg : Bool) (m : Nat) (e : Int)
  deriving DecidableEq, Repr

namespace double

/-- The finite value `(-1)^neg * m * 2^e` divided by `2^c`, an integer when
`c ≤ e`. -/
def scaled (neg : Bool) (m : Nat) (e c : Int) : Int :=
  if neg then -((m * 2 ^ (e - c).toNat : Nat) : Int) else ((m * 2 ^ (e - c).toNat : Nat) : Int)

/-- The built-in `x == y` on doubles: NaN equals nothing, `-0.0 == +0.0`;
two finite values are compared exactly, over their smaller exponent. -/
def eq : double → double → Bool
  | fin s m e, fin t n f => decide (scaled s m e (min e f) = scaled t n f (min e f))
  | inf s, inf t => s == t
  | _, _ => false

/-- The built-in `x < y` on doubles: false whenever an operand is NaN. -/
def lt : double → double → Bool
  | fin s m e, fin t n f => decide (scaled s m e (min e f) < scaled t n f (min e f))
  | inf s, inf t => s && !t
  | inf s, fin _ _ _ => s
  | fin _ _ _, inf t => !t
  | _, _ => false

/-- The double `+0.0`, the value a value-initialised `double` holds. -/
def zero : double := fin false 0 0

/-- The conversion `(double)n` of an integer that a double represents exactly. -/
def ofInt (n : Int) : double := fin (decide (n < 0)) n.natAbs 0

/-- Whether the datum is a NaN. -/
def isNaN : double → Bool
  | nan => true
  | _ => false

/-- The value of a finite double as a rational number. -/
def rat (neg : Bool) (m : Nat) (e : Int) : ℚ :=
  (if neg then -(m : ℚ) else (m : ℚ)) * (2 : ℚ) ^ e

end double

/-! ## Strings, atoms -/

/-- A `std::string`: its bytes in order. -/
abbrev string := List Nat

/-- The C++ type `bool`. -/
abbrev bool := Bool

/-- The C++ type `long`, a 64-bit integer; an operation that leaves its range
is modelled where it occurs. -/
abbrev long := Int

/-- Lexicographic comparison of two ranges by a "less" test, as performed by
`std::lexicographical_compare` (and by the three-way comparison synthesised
from `<`): the first position where either element is less decides; if there
is none the shorter range is the smaller. -/
def lexLt {α : Type} (lt : α → α → Bool) : List α → List α → Bool
  | [], [] => false
  | [], _ :: _ => true
  | _ :: _, [] => false
  | x :: xs, y :: ys =>
    if lt x y then true else if lt y x then false else lexLt lt xs ys

/-- Range equality as performed by `std::equal` after the size check. -/
def listEq {α : Type} (eq : α → α → Bool) : List α → List α → Bool
  | [], [] => true
  | x :: xs, y :: ys => eq x y && listEq eq xs ys
  | _, _ => false

/-- The `operator<` of `std::string`: byte-wise lexicographic comparison. -/
def string.lt (s t : string) : Bool := lexLt (fun a b => decide (a < b)) s t

/-- The `operator==` of `std::string`: same length and same bytes. -/
def string.eq (s t : string) : Bool := decide (s = t)

/-- The record `Atom_t` (lines 41-47): the shared pointer `ref` to the cell and
the optional name `var`. -/
structure Atom_t where
  ref : Nat
  var : Option string
  deriving DecidableEq, Repr

/-- The member `Atom_t::operator==` (line 45): `ref == rhs.ref`. -/
def Atom_t.eq (a rhs : Atom_t) : Bool := decide (a.ref = rhs.ref)

/-- The member `Atom_t::operator<` (line 46): `ref < rhs.ref`. -/
def Atom_t.lt (a rhs : Atom_t) : Bool := decide (a.ref < rhs.ref)

/-! ## Values -/

/-- The type `Builtin_t`, a `std::function`: empty, or a stored target. -/
abbrev Builtin_t := Option Nat

mutual
/-- The record `MalType` (lines 67-79): tag, data payload, callable slot. -/
inductive MalType
  | mk (id : Type_) (val : DataType) (func : Functor)
/-- The variant `DataType` (line 54), alternatives in declaration order:
`double, bool, Container, Map_t, std::string, Atom_t, Null`. -/
inductive DataType
  | num (d : double)
  | bool (b : Bool)
  | seq (c : List MalType)
  | map (m : List (MalType × MalType))
  | str (s : string)
  | atom (a : Atom_t)
  | null
/-- The variant `Functor` (line 55): `Builtin_t, Lambda_t, Null`. -/
inductive Functor
  | builtin (b : Builtin_t)
  | lambda (l : Lambda_t)
  | null
/-- The record `Lambda_t` (lines 57-65). -/
inductive Lambda_t
  | mk (params : List string) (body : List MalType) (env : Nat)
      (varidic_index : Option Nat)
end

/-- The alias `Container` (line 50). -/
abbrev Container := List MalType

/-- The alias `Map_t` (line 51): the entries in iteration order. -/
abbrev Map_t := List (MalType × MalType)

/-- Field `id` of a `MalType`. -/
def MalType.id : MalType → Type_
  | .mk id _ _ => id

/-- Field `val` of a `MalType`. -/
def MalType.val : MalType → DataType
  | .mk _ val _ => val

/-- Field `func` of a `MalType`. -/
def MalType.func : MalType → Functor
  | .mk _ _ func => func

/-- The member `index()` of the variant `DataType`. -/
def DataType.index : DataType → Nat
  | .num _ => 0
  | .bool _ => 1
  | .seq _ => 2
  | .map _ => 3
  | .str _ => 4
  | .atom _ => 5
  | .null => 6

mutual
/-- The member `MalType::operator==` (line 77): `val == rhs.val`. -/
def MalType.eq : MalType → MalType → Bool
  | .mk _ v _, .mk _ w _ => DataType.eq v w
termination_by structural a => a
/-- The `operator==` of `std::variant`: same alternative and equal contents. -/
def DataType.eq : DataType → DataType → Bool
  | .num x, .num y => double.eq x y
  | .bool x, .bool y => x == y
  | .seq xs, .seq ys => seqEq xs ys
  | .map xs, .map ys => mapEq xs ys
  | .str s, .str t => string.eq s t
  | .atom a, .atom b => Atom_t.eq a b
  | .null, .null => true
  | _, _ => false
termination_by structural v => v
/-- The `operator==` of `std::vector<MalType>`. -/
def seqEq : List MalType → List MalType → Bool
  | [], [] => true
  | x :: xs, y :: ys => MalType.eq x y && seqEq xs ys
  | _, _ => false
termination_by structural xs => xs
/-- The `operator==` of `std::map<MalType, MalType>`: same size and pairwise
equal entries, an entry being equal when key and mapped value both are. -/
def mapEq : List (MalType × MalType) → List (MalType × MalType) → Bool
  | [], [] => true
  | (k, v) :: xs, (k2, v2) :: ys => MalType.eq k k2 && MalType.eq v v2 && mapEq xs ys
  | _, _ => false
termination_by structural xs => xs
end

mutual
/-- The member `MalType::operator<` (line 78): `val < rhs.val`. -/
def MalType.lt : MalType → MalType → Bool
  | .mk _ v _, .mk _ w _ => DataType.lt v w
termination_by a b => sizeOf a + sizeOf b
decreasing_by all_goals simp_wf; omega
/-- The `operator<` of `std::variant`: the variant with the smaller index is
the smaller one; when both hold the same alternative the contents decide. -/
def DataType.lt (v w : DataType) : Bool :=
  if v.index < w.index then true
  else if w.index < v.index then false
  else match v, w with
    | .num x, .num y => double.lt x y
    | .bool x, .bool y => !x && y
    | .seq xs, .seq ys => seqLt xs ys
    | .map xs, .map ys => mapLt xs ys
    | .str s, .str t => string.lt s t
    | .atom a, .atom b => Atom_t.lt a b
    | _, _ => false
termination_by sizeOf v + sizeOf w
decreasing_by all_goals simp_wf; omega
/-- The `operator<` of `std::vector<MalType>`: lexicographic, each pair of
elements being tested with `operator<` in both directions. -/
def seqLt : List MalType → List MalType → Bool
  | [], [] => false
  | [], _ :: _ => true
  | _ :: _, [] => false
  | x :: xs, y :: ys =>
    if MalType.lt x y then true else if MalType.lt y x then false else seqLt xs ys
termination_by xs ys => sizeOf xs + sizeOf ys
decreasing_by all_goals simp_wf; omega
/-- The `operator<` of `std::map<MalType, MalType>`: lexicographic over the
entries, an entry being compared by key first and mapped value second. -/
def mapLt : List (MalType × MalType) → List (MalType × MalType) → Bool
  | [], [] => false
  | [], _ :: _ => true
  | _ :: _, [] => false
  | (k, v) :: xs, (k2, v2) :: ys =>
    if MalType.lt k k2 then true else if MalType.lt k2 k then false
    else if MalType.lt v v2 then true else if MalType.lt v2 v then false
    else mapLt xs ys
termination_by xs ys => sizeOf xs + sizeOf ys
decreasing_by all_goals simp_wf; omega
end

/-! ## Constructors of `MalType` (lines 71-76)

The members `val` and `func` carry the default member initialisers `val{}`
and `func{}`: a value-initialised `std::variant` holds its first alternative,
value-initialised, that is the double `+0.0` for `DataType` and the empty
`std::function` for `Functor`. -/

/-- The default member initialiser `DataType val{}`. -/
def DataType.default : DataType := .num double.zero

/-- The default member initialiser `Functor func{}`. -/
def Functor.default : Functor := .builtin none

/-- The constructor `MalType() : id(Type::NIL) {}`. -/
def MalType.new : MalType := .mk .NIL DataType.default Functor.default

/-- The constructor `explicit MalType(Type id) : id(id) {}`. -/
def MalType.ofId (id : Type_) : MalType := .mk id DataType.default Functor.default

/-- The constructor `MalType(Type id, Functor func)`. -/
def MalType.ofFunc (id : Type_) (func : Functor) : MalType := .mk id DataType.default func

/-- The constructor `MalType(Type id, DataType val)`. -/
def MalType.ofVal (id : Type_) (val : DataType) : MalType := .mk id val Functor.default

/-! ## Values free of NaN -/

mutual
/-- No NaN occurs among the numbers of the data payload, at any depth. -/
def MalType.noNaN : MalType → Bool
  | .mk _ v _ => DataType.noNaN v
termination_by structural a => a
/-- No NaN occurs in the payload, at any depth. -/
def DataType.noNaN : DataType → Bool
  | .num d => !d.isNaN
  | .seq xs => seqNoNaN xs
  | .map m => mapNoNaN m
  | _ => true
termination_by structural v => v
/-- No element contains a NaN. -/
def seqNoNaN : List MalType → Bool
  | [] => true
  | x :: xs => MalType.noNaN x && seqNoNaN xs
termination_by structural xs => xs
/-- No key and no mapped value contains a NaN. -/
def mapNoNaN : List (MalType × MalType) → Bool
  | [] => true
  | (k, v) :: m => MalType.noNaN k && MalType.noNaN v && mapNoNaN m
termination_by structural m => m
end

/-! ## Arithmetic on doubles -/

namespace double

/-- Halve `n` until it is below two, at most `fuel` times, counting the steps. -/
def log2_go : Nat → Nat → Nat
  | 0, _ => 0
  | fuel + 1, n => if n < 2 then 0 else log2_go fuel (n / 2) + 1

/-- The position of the leading bit of `n`, that is `⌊log₂ n⌋`, for `n ≥ 1`. -/
def log2 (n : Nat) : Nat := log2_go n n

/-- The finite double nearest to the positive rational `(p / q) * 2^x`
(`p, q ≥ 1`), with ties going to the even significand, as IEEE 754 rounds the
result of an arithmetic operation: 53 significant bits, exponent at least
`-1074`, and an infinity when the rounded value reaches `2^1024`. -/
def round (neg : Bool) (p q : Nat) (x : Int) : double :=
  let d : Int := (log2 p : Int) - (log2 q : Int)
  let l : Int := if q * 2 ^ d.toNat ≤ p * 2 ^ (-d).toNat then d else d - 1
  let e : Int := max (l + x - 52) (-1074)
  let sh : Int := x - e
  let P : Nat := p * 2 ^ sh.toNat
  let Q : Nat := q * 2 ^ (-sh).toNat
  let n : Nat := P / Q
  let r : Nat := P % Q
  let m : Nat := if Q < 2 * r ∨ (2 * r = Q ∧ n % 2 = 1) then n + 1 else n
  if 1024 ≤ (log2 m : Int) + e then inf neg else fin neg m e

/-- The built-in `x / y` on doubles (IEEE 754 division, round to nearest). -/
def div : double → double → double
  | fin s m e, fin t n f =>
    if n = 0 then (if m = 0 then nan else inf (s != t))
    else if m = 0 then fin (s != t) 0 0
    else round (s != t) m n (e - f)
  | inf s, fin t _ _ => inf (s != t)
  | fin s _ _, inf t => fin (s != t) 0 0
  | _, _ => nan

/-- The conversion `(long)d` to a 64-bit integer: the value with its
fractional part discarded; `none` where the conversion is not defined (NaN,
infinities, values outside the range of `long`). -/
def trunc_long : double → Option Int
  | fin s m e =>
    let t : Nat := if 0 ≤ e then m * 2 ^ e.toNat else m / 2 ^ (-e).toNat
    let v : Int := if s then -(t : Int) else (t : Int)
    if -(2 : Int) ^ 63 ≤ v ∧ v < (2 : Int) ^ 63 then some v else none
  | _ => none

end double

/-! ## Namespace `Types` -/

/-- What a failing operation throws. `bad_variant_access` is the
`std::bad_variant_access` of `std::get`.  `TypeError`: modelled from the spec:
the error of `Types::type_error` (declared at line 131, body not in
`types.hpp`), which §7 describes as `TypeError(expectedKind, actualKind)`. -/
inductive Exception
  | bad_variant_access
  | TypeError (expected got : string)
  deriving DecidableEq, Repr

/-- Modelled from the spec: `Types::get_number_type` is declared (line 97) and
its body is not in `types.hpp`.  §4.2: "returns Int if the value equals its
truncation-to-integer (no fractional part, within representable range), else
Float"; the integer type is `long`, the parameter type of `Types::Int`. -/
def Types.get_number_type (val : double) : Type_ :=
  match double.trunc_long val with
  | some t => if double.eq (double.ofInt t) val then .INT else .FLOAT
  | none => .FLOAT

/-- Modelled from the spec: `Types::Bool` is declared (line 104) and its body is
not in `types.hpp`.  §4.1: one constructor per discriminant, pure and always
succeeding; §3: the payload of a Bool value is a `bool`. -/
def Types.Bool (val : bool) : MalType := MalType.ofVal .BOOL (.bool val)

/-- Modelled from the spec: `Types::Int` (line 103, body not in `types.hpp`).
§4.1: "normalizes to the numeric payload but records integer intent". -/
def Types.Int (num : long) : MalType := MalType.ofVal .INT (.num (double.ofInt num))

/-- Modelled from the spec: `Types::Float` (line 102, body not in `types.hpp`). -/
def Types.Float (num : double) : MalType := MalType.ofVal .FLOAT (.num num)

/-- Modelled from the spec: `Types::Symbol` (line 101, body not in `types.hpp`). -/
def Types.Symbol (symbol : string) : MalType := MalType.ofVal .SYMBOL (.str symbol)

/-- Modelled from the spec: `Types::String` (line 100, body not in `types.hpp`). -/
def Types.String (s : string) : MalType := MalType.ofVal .STRING (.str s)

/-- Modelled from the spec: `Types::List` (line 105, body not in `types.hpp`). -/
def Types.List (list : Container) : MalType := MalType.ofVal .LIST (.seq list)

/-- Modelled from the spec: `Types::Vector` (line 106, body not in `types.hpp`). -/
def Types.Vector (vec : Container) : MalType := MalType.ofVal .VECTOR (.seq vec)

/-- The call `std::holds_alternative<double>(v)`: the variant holds a number. -/
def DataType.holds_double (v : DataType) : Bool := v.index == 0

/-- The call `std::get<double>(v)`: the double held by the variant, or the
exception `std::bad_variant_access` when another alternative is held. -/
def DataType.get_double : DataType → Except Exception double
  | .num d => .ok d
  | _ => .error .bad_variant_access

/-- The template `Types::apply_num_op` (lines 119-123). -/
def Types.apply_num_op (func : double → double → double) (lhs rhs : MalType) :
    Except Exception MalType := do
  let x ← DataType.get_double lhs.val
  let y ← DataType.get_double rhs.val
  let num := func x y
  return MalType.ofVal (Types.get_number_type num) (.num num)

/-- The template `Types::apply_num_bool_op` (lines 125-129). -/
def Types.apply_num_bool_op (func : double → double → bool) (lhs rhs : MalType) :
    Except Exception MalType := do
  let x ← DataType.get_double lhs.val
  let y ← DataType.get_double rhs.val
  let res := func x y
  return Types.Bool res

/-! ## The container `std::map`

The alias `Map_t` (line 51) is `std::map<MalType, MalType>` with the default
comparison `std::less<MalType>`, that is `MalType::operator<`.  The standard
asks of the comparison that it be a strict weak order and says nothing of the
container otherwise; `MalType::operator<` is none once a key contains a NaN.
The container is therefore modelled as what it is in libstdc++, the red-black
tree `std::_Rb_tree` (`bits/stl_tree.h`, `tree.cc`): what `insert` and `find`
do is fixed by the shape of the tree, whatever the comparison.  The entries in
iteration order, which is all that `operator==` and `operator<` of the
container read, are `Rb_tree.toList`. -/

/-- The colour of a tree node (`_S_red`, `_S_black`). -/
inductive Rb_tree_color
  | red | black
  deriving DecidableEq, Repr

/-- The tree `std::_Rb_tree`: empty, or a node with its colour, left subtree,
key, mapped value and right subtree. -/
inductive Rb_tree (α β : Type)
  | nil
  | node (color : Rb_tree_color) (left : Rb_tree α β) (key : α) (val : β)
      (right : Rb_tree α β)

/-- A position in a tree, given by the way up to the root: the position is the
root, or the left child of a node (of which the colour, the way further up,
key, mapped value and right subtree are recorded), or the right child of a
node.  It stands for the parent pointers of the nodes. -/
inductive Rb_path (α β : Type)
  | root
  | left (color : Rb_tree_color) (parent : Rb_path α β) (key : α) (val : β)
      (right : Rb_tree α β)
  | right (color : Rb_tree_color) (left : Rb_tree α β) (key : α) (val : β)
      (parent : Rb_path α β)

/-- The whole tree when the subtree `x` stands at the position. -/
def Rb_path.plug {α β : Type} : Rb_path α β → Rb_tree α β → Rb_tree α β
  | .root, x => x
  | .left c p k v r, x => p.plug (.node c x k v r)
  | .right c l k v p, x => p.plug (.node c l k v x)

/-- The test `y && y->_M_color == _S_red`. -/
def Rb_tree.is_red {α β : Type} : Rb_tree α β → Bool
  | .node .red _ _ _ _ => true
  | _ => false

/-- The assignment `x->_M_color = c`. -/
def Rb_tree.set_color {α β : Type} (c : Rb_tree_color) : Rb_tree α β → Rb_tree α β
  | .nil => .nil
  | .node _ l k v r => .node c l k v r

/-- The loop of `std::_Rb_tree_insert_and_rebalance`, run on the red node `x`
standing at the position `p`: `while (x != root && x->parent->color == red)`.
With a red uncle the parent and the uncle become black, the grandparent red,
and the loop goes on at the grandparent.  Otherwise `x` is first rotated to the
outer side if it is an inner child, then its parent becomes black, the
grandparent red, and the grandparent is rotated; the loop ends.  A red parent
at the root and an empty `x` do not occur (the root is black after every
insertion); the tree is left as it is there. -/
def Rb_tree.rebalance {α β : Type} : Rb_tree α β → Rb_path α β → Rb_tree α β
  | x, .root => x
  | x, .left .black p k v r => (Rb_path.left .black p k v r).plug x
  | x, .right .black l k v p => (Rb_path.right .black l k v p).plug x
  | x, .left .red .root k v r => (Rb_path.left .red .root k v r).plug x
  | x, .right .red l k v .root => (Rb_path.right .red l k v .root).plug x
  | x, .left .red (.left _ gp kg vg u) kp vp c =>
    if u.is_red then
      Rb_tree.rebalance
        (.node .red (.node .black x kp vp c) kg vg (u.set_color .black)) gp
    else gp.plug (.node .black x kp vp (.node .red c kg vg u))
  | x, .right .red a kp vp (.left cg gp kg vg u) =>
    if u.is_red then
      Rb_tree.rebalance
        (.node .red (.node .black a kp vp x) kg vg (u.set_color .black)) gp
    else
      match x with
      | .node _ b kx vx c =>
        gp.plug (.node .black (.node .red a kp vp b) kx vx (.node .red c kg vg u))
      | .nil => gp.plug (.node cg (.node .red a kp vp .nil) kg vg u)
  | x, .right .red a kp vp (.right _ u kg vg gp) =>
    if u.is_red then
      Rb_tree.rebalance
        (.node .red (u.set_color .black) kg vg (.node .black a kp vp x)) gp
    else gp.plug (.node .black (.node .red u kg vg a) kp vp x)
  | x, .left .red (.right cg u kg vg gp) kp vp c =>
    if u.is_red then
      Rb_tree.rebalance
        (.node .red (u.set_color .black) kg vg (.node .black x kp vp c)) gp
    else
      match x with
      | .node _ a kx vx b =>
        gp.plug (.node .black (.node .red u kg vg a) kx vx (.node .red b kp vp c))
      | .nil => gp.plug (.node cg u kg vg (.node .red .nil kp vp c))

/-- The descent of `_M_get_insert_unique_pos`: from the root, go left where
`k < key(x)` and right otherwise, down to an empty position.  The result is
that position and `j`, the key of the last node at which the descent went
right (the node the iterator `j` ends on, `none` when `j == begin()`). -/
def Rb_tree.descend {α β : Type} (lt : α → α → Bool) (k : α) :
    Rb_tree α β → Rb_path α β → Option α → Rb_path α β × Option α
  | .nil, p, j => (p, j)
  | .node c l kx vx r, p, j =>
    if lt k kx then Rb_tree.descend lt k l (.left c p kx vx r) j
    else Rb_tree.descend lt k r (.right c l kx vx p) (some kx)

/-- The member `_M_insert_unique`, which `std::map::insert` calls: after the
descent the entry is inserted when `j == begin()` or `key(j) < k`, as a red
node at the position found, the tree is rebalanced and the root made black;
otherwise the tree is left as it is. -/
def Rb_tree.insert_unique {α β : Type} (lt : α → α → Bool) (k : α) (v : β)
    (t : Rb_tree α β) : Rb_tree α β :=
  match Rb_tree.descend lt k t .root none with
  | (p, none) => (Rb_tree.rebalance (.node .red .nil k v .nil) p).set_color .black
  | (p, some kj) =>
    if lt kj k then (Rb_tree.rebalance (.node .red .nil k v .nil) p).set_color .black
    else t

/-- The member `_M_lower_bound`: from the root, with `y` the result so far; at
a node whose key is not less than `k` the node becomes the result and the
search goes left, otherwise it goes right. -/
def Rb_tree.lower_bound {α β : Type} (lt : α → α → Bool) (k : α) :
    Rb_tree α β → Option (α × β) → Option (α × β)
  | .nil, y => y
  | .node _ l kx vx r, y =>
    if lt kx k then Rb_tree.lower_bound lt k r y
    else Rb_tree.lower_bound lt k l (some (kx, vx))

/-- The member `find`: the entry `j` that `_M_lower_bound` ends on, unless
`j == end()` or `k < key(j)`; `none` is `end()`. -/
def Rb_tree.find {α β : Type} (lt : α → α → Bool) (k : α) (t : Rb_tree α β) :
    Option (α × β) :=
  match Rb_tree.lower_bound lt k t none with
  | none => none
  | some (kj, vj) => if lt k kj then none else some (kj, vj)

/-- The entries of the tree in iteration order. -/
def Rb_tree.toList {α β : Type} : Rb_tree α β → List (α × β)
  | .nil => []
  | .node _ l k v r => l.toList ++ (k, v) :: r.toList

/-- The container `std::map<MalType, MalType>`. -/
abbrev std_map := Rb_tree MalType MalType

/-- The member `insert` of `std::map<MalType, MalType>`, with the comparison
`MalType::operator<`. -/
def std_map.insert (k v : MalType) (m : std_map) : std_map :=
  Rb_tree.insert_unique MalType.lt k v m

/-- The member `find` of `std::map<MalType, MalType>`. -/
def std_map.find (k : MalType) (m : std_map) : Option (MalType × MalType) :=
  Rb_tree.find MalType.lt k m

/-- The entries of the map in iteration order, the payload a Map Value
compares by. -/
def std_map.entries (m : std_map) : Map_t := Rb_tree.toList m

/-- The map obtained from the empty map by the calls `insert` of the entries,
one after the other. -/
def std_map.ofList (entries : List (MalType × MalType)) : std_map :=
  entries.foldl (fun m p => std_map.insert p.1 p.2 m) Rb_tree.nil

/-- The keys of a map in iteration order. -/
def Map_t.keys (m : Map_t) : List MalType := m.map Prod.fst

/-! ## Cells -/

/-- The heap: the value held by the cell at each address, `none` where no cell
is allocated. -/
abbrev Heap := Nat → Option MalType

/-- The value `*ref` currently held by the cell of an atom. -/
def Atom_t.deref (h : Heap) (a : Atom_t) : Option MalType := h a.ref

/-- The assignment `*p = v`: the cell at address `p` now holds `v`, every other
cell is left as it was. -/
def Heap.store (h : Heap) (p : Nat) (v : MalType) : Heap :=
  fun q => if q = p then some v else h q

/-- The implicitly defined copy constructor of `Atom_t`: each member is copied,
and the copy of a `std::shared_ptr` points to the same object. -/
def Atom_t.copy (a : Atom_t) : Atom_t := { ref := a.ref, var := a.var }

/-- The implicitly defined copy constructor of `MalType`, for a Value whose
payload is an atom: `id`, `val` and `func` are copied member by member, the
atom through `Atom_t.copy`.  A Value with another payload is copied as it is. -/
def MalType.copy : MalType → MalType
  | .mk id (.atom a) func => .mk id (.atom a.copy) func
  | a => a

/-- Modelled from the spec: `Types::Atom` is declared (line 99) and its body is
not in `types.hpp`.  §3: "a shared, heap-allocated single-slot mutable cell
holding one Value, plus an optional debug/name tag".  The cell is allocated at
the address `p` the allocator hands out and is initialised with `mal_val`; the
result is the Value tagged ATOM referring to it, and the heap after the call. -/
def Types.Atom (p : Nat) (mal_val : MalType) (var : Option string) (h : Heap) :
    MalType × Heap :=
  (MalType.ofVal .ATOM (.atom { ref := p, var := var }), Heap.store h p mal_val)

/-! ## The alternatives of `DataType` and `Types::apply_binary` -/

/-- The alias `Null` (line 49), `std::monostate`. -/
abbrev Null := Unit

/-- The seven alternatives of `DataType`, the types a template argument of
`std::get` may name: `double, bool, Container, Map_t, std::string, Atom_t,
Null`. -/
inductive Kind
  | number | boolean | sequence | mapping | text | atom | unit
  deriving DecidableEq, Repr

/-- The alternative type a kind stands for. -/
def Kind.type : Kind → Type
  | .number => double
  | .boolean => Bool
  | .sequence => Container
  | .mapping => Map_t
  | .text => string
  | .atom => Atom_t
  | .unit => Null

/-- The position of the alternative in the declaration of `DataType`. -/
def Kind.index : Kind → Nat
  | .number => 0
  | .boolean => 1
  | .sequence => 2
  | .mapping => 3
  | .text => 4
  | .atom => 5
  | .unit => 6

/-- The alternative a payload holds. -/
def DataType.kind : DataType → Kind
  | .num _ => .number
  | .bool _ => .boolean
  | .seq _ => .sequence
  | .map _ => .mapping
  | .str _ => .text
  | .atom _ => .atom
  | .null => .unit

/-- The payload kinds from the smallest to the largest: number, boolean,
sequence, map, text, atom, nil. -/
def Kind.order : List Kind :=
  [.number, .boolean, .sequence, .mapping, .text, .atom, .unit]

/-- The variant holding the value `x` of the alternative `k`. -/
def DataType.of : (k : Kind) → k.type → DataType
  | .number, x => .num x
  | .boolean, x => .bool x
  | .sequence, x => .seq x
  | .mapping, x => .map x
  | .text, x => .str x
  | .atom, x => .atom x
  | .unit, _ => .null

/-- The call `std::get<T>(v)` for the alternative `T` that `k` stands for: the
value held, or the exception `std::bad_variant_access` when the variant holds
another alternative. -/
def DataType.get : (k : Kind) → DataType → Except Exception k.type
  | .number, .num d => .ok d
  | .boolean, .bool b => .ok b
  | .sequence, .seq c => .ok c
  | .mapping, .map m => .ok m
  | .text, .str s => .ok s
  | .atom, .atom a => .ok a
  | .unit, .null => .ok ()
  | _, _ => .error .bad_variant_access

/-- The template `Types::apply_binary<L, R, Ret>` (lines 114-117):
`func(std::get<L>(lhs.val), std::get<R>(rhs.val))`.  Both arguments are
evaluated before the call.  The callable may have effects: it is a function of
the two payloads and of the program state `σ`, returning its result and the
new state (a pure callable is the case `σ = Unit`); an exception leaves the
state as it was. -/
def Types.apply_binary (L R : Kind) {Ret σ : Type}
    (func : L.type → R.type → σ → Ret × σ) (lhs rhs : MalType) (s : σ) :
    Except Exception Ret × σ :=
  match DataType.get L lhs.val, DataType.get R rhs.val with
  | .ok x, .ok y => (.ok (func x y s).1, (func x y s).2)
  | .error e, _ => (.error e, s)
  | _, .error e => (.error e, s)

/-! ## Notions used in the statements and proofs -/

/-- The keys and mapped values of a map, in iteration order. -/
def Map_t.flat : Map_t → List MalType
  | [] => []
  | (k, v) :: m => k :: v :: Map_t.flat m

/-- The laws of a strict weak order `lt` whose equivalence is `eq`, stated for
the members of a set `S`. -/
structure WeakOrder {α : Type} (eq lt : α → α → Bool) (S : α → Prop) : Prop where
  irrefl : ∀ x, S x → lt x x = false
  trans : ∀ x y z, S x → S y → S z → lt x y = true → lt y z = true → lt x z = true
  cotrans : ∀ x y z, S x → S y → S z → lt x z = true → lt x y = true ∨ lt y z = true
  tricho : ∀ x y, S x → S y → eq x y = (!lt x y && !lt y x)

/-- The laws that survive the presence of NaN: `eq` is symmetric and
transitive, `lt` is irreflexive and asymmetric. -/
structure BasicLaws {α : Type} (eq lt : α → α → Bool) (S : α → Prop) : Prop where
  eq_symm : ∀ x y, S x → S y → eq x y = eq y x
  eq_trans : ∀ x y z, S x → S y → S z → eq x y = true → eq y z = true → eq x z = true
  lt_irrefl : ∀ x, S x → lt x x = false
  lt_asymm : ∀ x y, S x → S y → lt x y = true → lt y x = false

/-- The numbers of the payload are not NaN and its immediate elements (the
elements of a sequence, the keys and mapped values of a map) lie in `S`. -/
def DataType.Within (S : MalType → Prop) : DataType → Prop
  | .num d => d.isNaN = false
  | .seq xs => ∀ x ∈ xs, S x
  | .map m => ∀ x ∈ Map_t.flat m, S x
  | _ => True

/-- The immediate elements of the payload lie in `S`. -/
def DataType.Elems (S : MalType → Prop) : DataType → Prop
  | .seq xs => ∀ x ∈ xs, S x
  | .map m => ∀ x ∈ Map_t.flat m, S x
  | _ => True

/-- Neither element is less than the other. -/
def Undecided {α : Type} (lt : α → α → Bool) (x y : α) : Prop :=
  lt x y = false ∧ lt y x = false

/-- At the first position where one element is less than the other, it is the
element of `xs` that is less: `xs` and `ys` start with equally long runs `p` and
`q` in which no position decides, followed by `x` in `xs` and `y` in `ys` with
`x < y`. -/
def FirstLess {α : Type} (lt : α → α → Bool) (xs ys : List α) : Prop :=
  ∃ p q x xs2 y ys2, xs = p ++ x :: xs2 ∧ ys = q ++ y :: ys2 ∧
    List.Forall₂ (Undecided lt) p q ∧ lt x y = true

/-- The sequence `ys` is longer than `xs` and no position of `xs` decides. -/
def UndecidedPrefix {α : Type} (lt : α → α → Bool) (xs ys : List α) : Prop :=
  ∃ q c r, ys = q ++ c :: r ∧ List.Forall₂ (Undecided lt) xs q

/-- The sequence `xs` is a proper prefix of `ys`, elements being compared with
`eq`: `ys` is longer and starts with elements equal to those of `xs`. -/
def ProperPrefix {α : Type} (eq : α → α → Bool) (xs ys : List α) : Prop :=
  ∃ q c r, ys = q ++ c :: r ∧ List.Forall₂ (fun x y => eq x y = true) xs q

/-- The text `s` is lexicographically smaller than `t`, byte-wise: after a
common prefix `s` continues with a smaller byte than `t`, or `s` ends and `t`
goes on. -/
def TextLess (s t : string) : Prop :=
  (∃ p a s2 b t2, s = p ++ a :: s2 ∧ t = p ++ b :: t2 ∧ a < b) ∨ (∃ c r, t = s ++ c :: r)

/-- The double has no fractional component: it is finite and its value is an
integer. -/
def double.HasNoFraction (d : double) : Prop :=
  ∃ s m e, ∃ n : Int, d = .fin s m e ∧ double.rat s m e = (n : ℚ)

/-- The double round-trips exactly through truncation to an integer: the
conversion `(long)d` is defined and converting its result back gives a double
equal to `d`. -/
def double.RoundTrips (d : double) : Prop :=
  ∃ t, double.trunc_long d = some t ∧ double.eq (double.ofInt t) d = true

/-- The entries that come before a position in iteration order. -/
def Rb_path.before {α β : Type} : Rb_path α β → List (α × β)
  | .root => []
  | .left _ p _ _ _ => p.before
  | .right _ l k v p => p.before ++ l.toList ++ [(k, v)]

/-- The entries that come after a position in iteration order. -/
def Rb_path.after {α β : Type} : Rb_path α β → List (α × β)
  | .root => []
  | .left _ p k v r => (k, v) :: r.toList ++ p.after
  | .right _ _ _ _ p => p.after

/-! # Lemmas -/

/-! ## Lexicographic comparison over a strict weak order -/

section Lex

variable {α : Type} {eq lt : α → α → Bool} {S : α → Prop}

theorem lexLt_irrefl (h : WeakOrder eq lt S) :
    ∀ xs : List α, (∀ x ∈ xs, S x) → lexLt lt xs xs = false := by
  intro xs
  induction xs with
  | nil => intro _; rfl
  | cons x xs ih =>
    intro hx
    have h1 := h.irrefl x (hx x (List.mem_cons_self _ _))
    have h2 := ih (fun y hy => hx y (List.mem_cons_of_mem _ hy))
    simp [lexLt, h1, h2]

theorem WeakOrder.lt_und (h : WeakOrder eq lt S) {x y z : α} (sx : S x) (sy : S y)
    (sz : S z) (h1 : lt x y = true) (h3 : lt z y = false) : lt x z = true := by
  rcases h.cotrans x z y sx sz sy h1 with h4 | h4
  · exact h4
  · rw [h3] at h4; cases h4

theorem WeakOrder.und_lt (h : WeakOrder eq lt S) {x y z : α} (sx : S x) (sy : S y)
    (sz : S z) (h2 : lt y x = false) (h3 : lt y z = true) : lt x z = true := by
  rcases h.cotrans y x z sy sx sz h3 with h4 | h4
  · rw [h2] at h4; cases h4
  · exact h4

theorem WeakOrder.und_und (h : WeakOrder eq lt S) {x y z : α} (sx : S x) (sy : S y)
    (sz : S z) (h1 : lt x y = false) (h2 : lt y z = false) : lt x z = false := by
  cases h3 : lt x z with
  | false => rfl
  | true =>
    rcases h.cotrans x y z sx sy sz h3 with h4 | h4
    · rw [h1] at h4; cases h4
    · rw [h2] at h4; cases h4

theorem WeakOrder.asymm (h : WeakOrder eq lt S) {x y : α} (sx : S x) (sy : S y)
    (h1 : lt x y = true) : lt y x = false := by
  cases h2 : lt y x with
  | false => rfl
  | true =>
    have h3 := h.trans x y x sx sy sx h1 h2
    rw [h.irrefl x sx] at h3; cases h3

theorem lexLt_trans (h : WeakOrder eq lt S) :
    ∀ xs ys zs : List α, (∀ x ∈ xs, S x) → (∀ x ∈ ys, S x) → (∀ x ∈ zs, S x) →
      lexLt lt xs ys = true → lexLt lt ys zs = true → lexLt lt xs zs = true := by
  intro xs
  induction xs with
  | nil =>
    intro ys zs _ _ _ h1 h2
    cases ys <;> cases zs <;> simp_all [lexLt]
  | cons x xs ih =>
    intro ys zs hx hy hz h1 h2
    cases ys with
    | nil => simp [lexLt] at h1
    | cons y ys =>
      cases zs with
      | nil => simp [lexLt] at h2
      | cons z zs =>
        have sx := hx x (List.mem_cons_self _ _)
        have sy := hy y (List.mem_cons_self _ _)
        have sz := hz z (List.mem_cons_self _ _)
        have ih2 := ih ys zs (fun a ha => hx a (List.mem_cons_of_mem _ ha))
          (fun a ha => hy a (List.mem_cons_of_mem _ ha))
          (fun a ha => hz a (List.mem_cons_of_mem _ ha))
        simp only [lexLt] at h1 h2 ⊢
        cases hxy : lt x y with
        | true =>
          cases hyz : lt y z with
          | true => simp [h.trans x y z sx sy sz hxy hyz]
          | false =>
            cases hzy : lt z y with
            | true => simp [hyz, hzy] at h2
            | false => simp [h.lt_und sx sy sz hxy hzy]
        | false =>
          cases hyx : lt y x with
          | true => simp [hxy, hyx] at h1
          | false =>
            cases hyz : lt y z with
            | true => simp [h.und_lt sx sy sz hyx hyz]
            | false =>
              cases hzy : lt z y with
              | true => simp [hyz, hzy] at h2
              | false =>
                simp only [hxy, hyx, hyz, hzy] at h1 h2
                simp [h.und_und sx sy sz hxy hyz, h.und_und sz sy sx hzy hyx]
                exact ih2 (by simpa using h1) (by simpa using h2)

theorem lexLt_cotrans (h : WeakOrder eq lt S) :
    ∀ xs ys zs : List α, (∀ x ∈ xs, S x) → (∀ x ∈ ys, S x) → (∀ x ∈ zs, S x) →
      lexLt lt xs zs = true → lexLt lt xs ys = true ∨ lexLt lt ys zs = true := by
  intro xs
  induction xs with
  | nil =>
    intro ys zs _ _ _ h1
    cases ys <;> cases zs <;> simp_all [lexLt]
  | cons x xs ih =>
    intro ys zs hx hy hz h1
    cases zs with
    | nil => simp [lexLt] at h1
    | cons z zs =>
      cases ys with
      | nil => simp [lexLt]
      | cons y ys =>
        have sx := hx x (List.mem_cons_self _ _)
        have sy := hy y (List.mem_cons_self _ _)
        have sz := hz z (List.mem_cons_self _ _)
        have ih2 := ih ys zs (fun a ha => hx a (List.mem_cons_of_mem _ ha))
          (fun a ha => hy a (List.mem_cons_of_mem _ ha))
          (fun a ha => hz a (List.mem_cons_of_mem _ ha))
        simp only [lexLt] at h1 ⊢
        cases hxy : lt x y with
        | true => simp
        | false =>
          cases hyz : lt y z with
          | true => simp
          | false =>
            have hxz := h.und_und sx sy sz hxy hyz
            simp only [hxz] at h1
            cases hzx : lt z x with
            | true => simp [hzx] at h1
            | false =>
              cases hyx : lt y x with
              | true =>
                have := h.lt_und sy sx sz hyx hzx
                rw [hyz] at this; cases this
              | false =>
                have hzy := h.und_und sz sx sy hzx hxy
                simp only [hzx] at h1
                simp [hzy]
                exact ih2 (by simpa using h1)

theorem listEq_tricho (h : WeakOrder eq lt S) :
    ∀ xs ys : List α, (∀ x ∈ xs, S x) → (∀ x ∈ ys, S x) →
      listEq eq xs ys = (!lexLt lt xs ys && !lexLt lt ys xs) := by
  intro xs
  induction xs with
  | nil => intro ys _ _; cases ys <;> simp [listEq, lexLt]
  | cons x xs ih =>
    intro ys hx hy
    cases ys with
    | nil => simp [listEq, lexLt]
    | cons y ys =>
      have sx := hx x (List.mem_cons_self _ _)
      have sy := hy y (List.mem_cons_self _ _)
      have ih2 := ih ys (fun a ha => hx a (List.mem_cons_of_mem _ ha))
        (fun a ha => hy a (List.mem_cons_of_mem _ ha))
      simp only [listEq, lexLt, h.tricho x y sx sy, ih2]
      cases hxy : lt x y with
      | true => simp [h.asymm sx sy hxy]
      | false => cases hyx : lt y x <;> simp

/-- The lexicographic comparison of lists over a strict weak order is a strict
weak order whose equivalence is element-wise equivalence. -/
theorem WeakOrder.lexWeak (h : WeakOrder eq lt S) :
    WeakOrder (listEq eq) (lexLt lt) (fun xs => ∀ x ∈ xs, S x) where
  irrefl := lexLt_irrefl h
  trans := lexLt_trans h
  cotrans := lexLt_cotrans h
  tricho := listEq_tricho h

end Lex

/-! ## The comparisons of the payload alternatives -/

theorem double.scaled_cast (neg : Bool) (m : Nat) (e c : Int) (h : c ≤ e) :
    ((double.scaled neg m e c : Int) : ℚ) * (2 : ℚ) ^ c = double.rat neg m e := by
  have h2 : ((2 : ℚ) ^ (e - c).toNat) * (2 : ℚ) ^ c = (2 : ℚ) ^ e := by
    rw [← zpow_natCast, Int.toNat_of_nonneg (sub_nonneg.2 h), ← zpow_add₀ (by norm_num)]
    congr 1; ring
  unfold double.scaled double.rat
  cases neg
  · simp only [Bool.false_eq_true, if_false]; push_cast; rw [mul_assoc, h2]
  · simp only [if_true]; push_cast; rw [neg_mul, neg_mul, mul_assoc, h2]

theorem double.scaled_lt_iff (s t : Bool) (m n : Nat) (e f : Int) :
    double.scaled s m e (min e f) < double.scaled t n f (min e f) ↔
      double.rat s m e < double.rat t n f := by
  rw [← double.scaled_cast s m e (min e f) (min_le_left _ _),
    ← double.scaled_cast t n f (min e f) (min_le_right _ _)]
  rw [mul_lt_mul_right (zpow_pos (by norm_num) _)]
  exact Int.cast_lt.symm

theorem double.scaled_eq_iff (s t : Bool) (m n : Nat) (e f : Int) :
    double.scaled s m e (min e f) = double.scaled t n f (min e f) ↔
      double.rat s m e = double.rat t n f := by
  rw [← double.scaled_cast s m e (min e f) (min_le_left _ _),
    ← double.scaled_cast t n f (min e f) (min_le_right _ _)]
  rw [mul_left_inj' (ne_of_gt (zpow_pos (by norm_num) _))]
  exact Int.cast_inj.symm

theorem double.lt_fin (s t : Bool) (m n : Nat) (e f : Int) :
    double.lt (.fin s m e) (.fin t n f) = decide (double.rat s m e < double.rat t n f) := by
  simp only [double.lt, double.scaled_lt_iff]

theorem double.eq_fin (s t : Bool) (m n : Nat) (e f : Int) :
    double.eq (.fin s m e) (.fin t n f) = decide (double.rat s m e = double.rat t n f) := by
  simp only [double.eq, double.scaled_eq_iff]

theorem double.weakOrder_double :
    WeakOrder double.eq double.lt (fun d => d.isNaN = false) where
  irrefl := by
    intro x _
    cases x <;> simp [double.lt]
  trans := by
    intro x y z _ _ _
    cases x <;> cases y <;> cases z <;> (try simp only [double.lt_fin]) <;>
      simp [double.lt] <;>
      first
        | (intro h1 h2; exact lt_trans h1 h2)
        | (intros; simp_all)
  cotrans := by
    intro x y z hx hy hz
    cases x <;> cases y <;> cases z <;> (try simp only [double.lt_fin]) <;>
      simp [double.lt, double.isNaN] at hx hy hz ⊢ <;> (try (intros; simp_all; done))
    rename_i s m e t n f u p g
    intro h
    rcases lt_or_le (double.rat s m e) (double.rat t n f) with h1 | h1
    · exact Or.inl h1
    · exact Or.inr (lt_of_le_of_lt h1 h)
  tricho := by
    intro x y hx hy
    cases x <;> cases y <;> (try simp only [double.lt_fin, double.eq_fin]) <;>
      simp [double.lt, double.eq, double.isNaN] at hx hy ⊢
    · rename_i a b; cases a <;> cases b <;> rfl
    · rename_i s m e t n f
      rcases lt_trichotomy (double.rat s m e) (double.rat t n f) with h | h | h
      · simp [h, ne_of_lt h]
      · simp [h]
      · simp [h, ne_of_gt h, le_of_lt h]

theorem bool_weakOrder :
    WeakOrder (fun x y : Bool => x == y) (fun x y => !x && y) (fun _ => True) where
  irrefl := by intro x _; cases x <;> rfl
  trans := by intro x y z _ _ _; cases x <;> cases y <;> cases z <;> simp
  cotrans := by intro x y z _ _ _; cases x <;> cases y <;> cases z <;> simp
  tricho := by intro x y _ _; cases x <;> cases y <;> rfl

theorem byte_weakOrder :
    WeakOrder (fun a b : Nat => decide (a = b)) (fun a b => decide (a < b))
      (fun _ => True) where
  irrefl := by intro x _; simp
  trans := by intro x y z _ _ _; simp; omega
  cotrans := by intro x y z _ _ _; simp; omega
  tricho := by intro x y _ _; rw [Bool.eq_iff_iff]; simp; omega

theorem Atom_t.weakOrder_atom : WeakOrder Atom_t.eq Atom_t.lt (fun _ => True) where
  irrefl := by intro x _; simp [Atom_t.lt]
  trans := by intro x y z _ _ _; simp [Atom_t.lt]; omega
  cotrans := by intro x y z _ _ _; simp [Atom_t.lt]; omega
  tricho := by intro x y _ _; rw [Bool.eq_iff_iff]; simp [Atom_t.lt, Atom_t.eq]; omega

theorem listEq_decide_eq (s t : List Nat) :
    listEq (fun a b : Nat => decide (a = b)) s t = decide (s = t) := by
  induction s generalizing t with
  | nil => cases t <;> simp [listEq]
  | cons a s ih => cases t <;> simp [listEq, ih]

theorem string.weakOrder_string : WeakOrder string.eq string.lt (fun _ => True) where
  irrefl := by
    intro x _
    exact byte_weakOrder.lexWeak.irrefl x (fun _ _ => trivial)
  trans := by
    intro x y z _ _ _
    exact byte_weakOrder.lexWeak.trans x y z (fun _ _ => trivial) (fun _ _ => trivial)
      (fun _ _ => trivial)
  cotrans := by
    intro x y z _ _ _
    exact byte_weakOrder.lexWeak.cotrans x y z (fun _ _ => trivial) (fun _ _ => trivial)
      (fun _ _ => trivial)
  tricho := by
    intro x y _ _
    have := byte_weakOrder.lexWeak.tricho x y (fun _ _ => trivial) (fun _ _ => trivial)
    rw [listEq_decide_eq] at this
    exact this

/-! ## The comparisons of values as lexicographic comparisons -/

theorem seqLt_eq_lexLt (xs ys : List MalType) : seqLt xs ys = lexLt MalType.lt xs ys := by
  induction xs generalizing ys with
  | nil => cases ys <;> simp [seqLt, lexLt]
  | cons x xs ih => cases ys <;> simp [seqLt, lexLt, ih]

theorem seqEq_eq_listEq (xs ys : List MalType) : seqEq xs ys = listEq MalType.eq xs ys := by
  induction xs generalizing ys with
  | nil => cases ys <;> simp [seqEq, listEq]
  | cons x xs ih => cases ys <;> simp [seqEq, listEq, ih]

theorem mapLt_eq_lexLt (m n : Map_t) :
    mapLt m n = lexLt MalType.lt (Map_t.flat m) (Map_t.flat n) := by
  induction m generalizing n with
  | nil => cases n <;> simp [mapLt, lexLt, Map_t.flat]
  | cons p m ih =>
    obtain ⟨k, v⟩ := p
    cases n with
    | nil => simp [mapLt, lexLt, Map_t.flat]
    | cons q n =>
      obtain ⟨k2, v2⟩ := q
      simp [mapLt, lexLt, Map_t.flat, ih]

theorem mapEq_eq_listEq (m n : Map_t) :
    mapEq m n = listEq MalType.eq (Map_t.flat m) (Map_t.flat n) := by
  induction m generalizing n with
  | nil => cases n <;> simp [mapEq, listEq, Map_t.flat]
  | cons p m ih =>
    obtain ⟨k, v⟩ := p
    cases n with
    | nil => simp [mapEq, listEq, Map_t.flat]
    | cons q n =>
      obtain ⟨k2, v2⟩ := q
      simp [mapEq, listEq, Map_t.flat, ih, Bool.and_assoc]

@[simp]
theorem MalType.lt_mk (i j : Type_) (v w : DataType) (f g : Functor) :
    MalType.lt (.mk i v f) (.mk j w g) = DataType.lt v w := by
  simp [MalType.lt]

@[simp]
theorem MalType.eq_mk (i j : Type_) (v w : DataType) (f g : Functor) :
    MalType.eq (.mk i v f) (.mk j w g) = DataType.eq v w := by
  simp [MalType.eq]

theorem MalType.lt_val (a b : MalType) : MalType.lt a b = DataType.lt a.val b.val := by
  cases a; cases b; simp [MalType.val]

theorem MalType.eq_val (a b : MalType) : MalType.eq a b = DataType.eq a.val b.val := by
  cases a; cases b; simp [MalType.val]

theorem DataType.lt_of_index_lt {v w : DataType} (h : v.index < w.index) :
    DataType.lt v w = true := by
  unfold DataType.lt; simp [h]

theorem DataType.lt_of_index_gt {v w : DataType} (h : w.index < v.index) :
    DataType.lt v w = false := by
  unfold DataType.lt; simp [h, Nat.lt_asymm h]

theorem DataType.eq_of_index_ne {v w : DataType} (h : v.index ≠ w.index) :
    DataType.eq v w = false := by
  cases v <;> cases w <;> simp [DataType.index] at h <;> simp [DataType.eq]

@[simp]
theorem DataType.lt_num (x y : double) :
    DataType.lt (.num x) (.num y) = double.lt x y := by
  rw [DataType.lt]; simp [DataType.index]

@[simp]
theorem DataType.lt_bool (x y : Bool) :
    DataType.lt (.bool x) (.bool y) = (!x && y) := by
  rw [DataType.lt]; simp [DataType.index]

@[simp]
theorem DataType.lt_seq (xs ys : List MalType) :
    DataType.lt (.seq xs) (.seq ys) = lexLt MalType.lt xs ys := by
  rw [DataType.lt]; simp [DataType.index, seqLt_eq_lexLt]

@[simp]
theorem DataType.lt_map (m n : Map_t) :
    DataType.lt (.map m) (.map n) = lexLt MalType.lt (Map_t.flat m) (Map_t.flat n) := by
  rw [DataType.lt]; simp [DataType.index, mapLt_eq_lexLt]

@[simp]
theorem DataType.lt_str (s t : string) :
    DataType.lt (.str s) (.str t) = string.lt s t := by
  rw [DataType.lt]; simp [DataType.index]

@[simp]
theorem DataType.lt_atom (a b : Atom_t) :
    DataType.lt (.atom a) (.atom b) = Atom_t.lt a b := by
  rw [DataType.lt]; simp [DataType.index]

@[simp]
theorem DataType.lt_null : DataType.lt .null .null = false := by
  unfold DataType.lt; simp

@[simp]
theorem DataType.eq_seq (xs ys : List MalType) :
    DataType.eq (.seq xs) (.seq ys) = listEq MalType.eq xs ys := by
  simp [DataType.eq, seqEq_eq_listEq]

@[simp]
theorem DataType.eq_map (m n : Map_t) :
    DataType.eq (.map m) (.map n) = listEq MalType.eq (Map_t.flat m) (Map_t.flat n) := by
  simp [DataType.eq, mapEq_eq_listEq]

/-! ## The strict weak order on values free of NaN -/

theorem DataType.index_le_of_lt {v w : DataType} (h : DataType.lt v w = true) :
    v.index ≤ w.index := by
  by_contra hc
  rw [DataType.lt_of_index_gt (Nat.lt_of_not_le hc)] at h
  cases h

theorem DataType.weakOrder_payload {S : MalType → Prop}
    (h : WeakOrder MalType.eq MalType.lt S) :
    WeakOrder DataType.eq DataType.lt (DataType.Within S) where
  irrefl := by
    intro v hv
    cases v with
    | num d => simpa using double.weakOrder_double.irrefl d hv
    | bool b => cases b <;> simp
    | seq xs => simpa using h.lexWeak.irrefl xs hv
    | map m => simpa using h.lexWeak.irrefl (Map_t.flat m) hv
    | str s => simpa using string.weakOrder_string.irrefl s trivial
    | atom a => simpa using Atom_t.weakOrder_atom.irrefl a trivial
    | null => simp
  trans := by
    intro v w u hv hw hu h1 h2
    have l1 := DataType.index_le_of_lt h1
    have l2 := DataType.index_le_of_lt h2
    rcases Nat.lt_or_ge v.index u.index with l3 | l3
    · exact DataType.lt_of_index_lt l3
    · have e1 : v.index = w.index := by omega
      have e2 : w.index = u.index := by omega
      cases v <;> cases w <;> simp [DataType.index] at e1 <;>
        cases u <;> simp [DataType.index] at e2
      · simp only [DataType.lt_num] at *
        exact double.weakOrder_double.trans _ _ _ hv hw hu h1 h2
      · simp only [DataType.lt_bool] at *
        exact bool_weakOrder.trans _ _ _ trivial trivial trivial h1 h2
      · simp only [DataType.lt_seq] at *
        exact h.lexWeak.trans _ _ _ hv hw hu h1 h2
      · simp only [DataType.lt_map] at *
        exact h.lexWeak.trans _ _ _ hv hw hu h1 h2
      · simp only [DataType.lt_str] at *
        exact string.weakOrder_string.trans _ _ _ trivial trivial trivial h1 h2
      · simp only [DataType.lt_atom] at *
        exact Atom_t.weakOrder_atom.trans _ _ _ trivial trivial trivial h1 h2
      · simp at h1
  cotrans := by
    intro v w u hv hw hu h1
    have l1 := DataType.index_le_of_lt h1
    rcases Nat.lt_or_ge v.index w.index with l2 | l2
    · exact Or.inl (DataType.lt_of_index_lt l2)
    rcases Nat.lt_or_ge w.index u.index with l3 | l3
    · exact Or.inr (DataType.lt_of_index_lt l3)
    have e1 : v.index = w.index := by omega
    have e2 : w.index = u.index := by omega
    cases v <;> cases w <;> simp [DataType.index] at e1 <;>
      cases u <;> simp [DataType.index] at e2
    · simp only [DataType.lt_num] at *
      exact double.weakOrder_double.cotrans _ _ _ hv hw hu h1
    · simp only [DataType.lt_bool] at *
      exact bool_weakOrder.cotrans _ _ _ trivial trivial trivial h1
    · simp only [DataType.lt_seq] at *
      exact h.lexWeak.cotrans _ _ _ hv hw hu h1
    · simp only [DataType.lt_map] at *
      exact h.lexWeak.cotrans _ _ _ hv hw hu h1
    · simp only [DataType.lt_str] at *
      exact string.weakOrder_string.cotrans _ _ _ trivial trivial trivial h1
    · simp only [DataType.lt_atom] at *
      exact Atom_t.weakOrder_atom.cotrans _ _ _ trivial trivial trivial h1
    · simp at h1
  tricho := by
    intro v w hv hw
    rcases Nat.lt_trichotomy v.index w.index with l | l | l
    · rw [DataType.eq_of_index_ne (Nat.ne_of_lt l), DataType.lt_of_index_lt l]; rfl
    · cases v <;> cases w <;> simp [DataType.index] at l
      · simpa [DataType.eq] using double.weakOrder_double.tricho _ _ hv hw
      · simpa [DataType.eq] using bool_weakOrder.tricho _ _ trivial trivial
      · simpa using h.lexWeak.tricho _ _ hv hw
      · simpa using h.lexWeak.tricho _ _ hv hw
      · simpa [DataType.eq] using string.weakOrder_string.tricho _ _ trivial trivial
      · simpa [DataType.eq] using Atom_t.weakOrder_atom.tricho _ _ trivial trivial
      · simp [DataType.eq]
    · rw [DataType.eq_of_index_ne (Nat.ne_of_gt l), DataType.lt_of_index_lt l,
        DataType.lt_of_index_gt l]; rfl

theorem seqNoNaN_mem {xs : List MalType} (h : seqNoNaN xs = true) :
    ∀ x ∈ xs, x.noNaN = true := by
  induction xs with
  | nil => intro x hx; cases hx
  | cons y ys ih =>
    simp only [seqNoNaN, Bool.and_eq_true] at h
    intro x hx
    rcases List.mem_cons.mp hx with rfl | hx
    · exact h.1
    · exact ih h.2 x hx

theorem mapNoNaN_mem {m : Map_t} (h : mapNoNaN m = true) :
    ∀ x ∈ Map_t.flat m, x.noNaN = true := by
  induction m with
  | nil => intro x hx; cases hx
  | cons p m ih =>
    obtain ⟨k, v⟩ := p
    simp only [mapNoNaN, Bool.and_eq_true] at h
    intro x hx
    simp only [Map_t.flat, List.mem_cons] at hx
    rcases hx with rfl | rfl | hx
    · exact h.1.1
    · exact h.1.2
    · exact ih h.2 x hx

theorem Map_t.sizeOf_lt_of_mem_flat {m : Map_t} :
    ∀ x ∈ Map_t.flat m, sizeOf x < sizeOf m := by
  induction m with
  | nil => intro x hx; cases hx
  | cons p m ih =>
    obtain ⟨k, v⟩ := p
    intro x hx
    simp only [Map_t.flat, List.mem_cons] at hx
    rcases hx with rfl | rfl | hx
    · simp; omega
    · simp; omega
    · have := ih x hx
      simp; omega

theorem DataType.within_of_noNaN (n : Nat) (i : Type_) (v : DataType) (f : Functor)
    (h1 : (MalType.mk i v f).noNaN = true) (h2 : sizeOf (MalType.mk i v f) < n + 1) :
    DataType.Within (fun a => a.noNaN = true ∧ sizeOf a < n) v := by
  simp only [MalType.noNaN] at h1
  simp only [MalType.mk.sizeOf_spec] at h2
  cases v with
  | num d => simpa [DataType.Within, DataType.noNaN] using h1
  | seq xs =>
    intro x hx
    refine ⟨seqNoNaN_mem (by simpa [DataType.noNaN] using h1) x hx, ?_⟩
    have := List.sizeOf_lt_of_mem hx
    simp only [DataType.seq.sizeOf_spec] at h2
    omega
  | map m =>
    intro x hx
    refine ⟨mapNoNaN_mem (by simpa [DataType.noNaN] using h1) x hx, ?_⟩
    have := Map_t.sizeOf_lt_of_mem_flat x hx
    simp only [DataType.map.sizeOf_spec] at h2
    omega
  | bool b => trivial
  | str s => trivial
  | atom a => trivial
  | null => trivial

theorem MalType.weakOrder_below (n : Nat) :
    WeakOrder MalType.eq MalType.lt (fun a => a.noNaN = true ∧ sizeOf a < n) := by
  induction n with
  | zero =>
    exact ⟨fun _ h => absurd h.2 (Nat.not_lt_zero _),
      fun _ _ _ h => absurd h.2 (Nat.not_lt_zero _),
      fun _ _ _ h => absurd h.2 (Nat.not_lt_zero _),
      fun _ _ h => absurd h.2 (Nat.not_lt_zero _)⟩
  | succ n ih =>
    have hD := DataType.weakOrder_payload ih
    refine ⟨?_, ?_, ?_, ?_⟩
    · rintro ⟨i, v, f⟩ ⟨h1, h2⟩
      simpa using hD.irrefl v (DataType.within_of_noNaN n i v f h1 h2)
    · rintro ⟨i, v, f⟩ ⟨j, w, g⟩ ⟨k, u, e⟩ ⟨h1, h2⟩ ⟨h3, h4⟩ ⟨h5, h6⟩
      simpa using hD.trans v w u (DataType.within_of_noNaN n i v f h1 h2)
        (DataType.within_of_noNaN n j w g h3 h4) (DataType.within_of_noNaN n k u e h5 h6)
    · rintro ⟨i, v, f⟩ ⟨j, w, g⟩ ⟨k, u, e⟩ ⟨h1, h2⟩ ⟨h3, h4⟩ ⟨h5, h6⟩
      simpa using hD.cotrans v w u (DataType.within_of_noNaN n i v f h1 h2)
        (DataType.within_of_noNaN n j w g h3 h4) (DataType.within_of_noNaN n k u e h5 h6)
    · rintro ⟨i, v, f⟩ ⟨j, w, g⟩ ⟨h1, h2⟩ ⟨h3, h4⟩
      simpa using hD.tricho v w (DataType.within_of_noNaN n i v f h1 h2)
        (DataType.within_of_noNaN n j w g h3 h4)

/-- On the values that contain no NaN, `operator<` is a strict weak order and
`operator==` is its equivalence. -/
theorem MalType.weakOrder_value :
    WeakOrder MalType.eq MalType.lt (fun a => a.noNaN = true) where
  irrefl := fun x hx =>
    (MalType.weakOrder_below (sizeOf x + 1)).irrefl x ⟨hx, Nat.lt_succ_self _⟩
  trans := fun x y z hx hy hz =>
    (MalType.weakOrder_below (sizeOf x + sizeOf y + sizeOf z + 1)).trans x y z
      ⟨hx, by omega⟩ ⟨hy, by omega⟩ ⟨hz, by omega⟩
  cotrans := fun x y z hx hy hz =>
    (MalType.weakOrder_below (sizeOf x + sizeOf y + sizeOf z + 1)).cotrans x y z
      ⟨hx, by omega⟩ ⟨hy, by omega⟩ ⟨hz, by omega⟩
  tricho := fun x y hx hy =>
    (MalType.weakOrder_below (sizeOf x + sizeOf y + 1)).tricho x y
      ⟨hx, by omega⟩ ⟨hy, by omega⟩

/-! ## Laws that hold for every value, NaN included -/

theorem BasicLaws.lexBasic {α : Type} {eq lt : α → α → Bool} {S : α → Prop}
    (h : BasicLaws eq lt S) :
    BasicLaws (listEq eq) (lexLt lt) (fun xs => ∀ x ∈ xs, S x) where
  eq_symm := by
    intro xs
    induction xs with
    | nil => intro ys _ _; cases ys <;> rfl
    | cons x xs ih =>
      intro ys hx hy
      cases ys with
      | nil => rfl
      | cons y ys =>
        simp only [listEq]
        rw [h.eq_symm x y (hx x (List.mem_cons_self _ _)) (hy y (List.mem_cons_self _ _)),
          ih ys (fun a ha => hx a (List.mem_cons_of_mem _ ha))
            (fun a ha => hy a (List.mem_cons_of_mem _ ha))]
  eq_trans := by
    intro xs
    induction xs with
    | nil => intro ys zs _ _ _ h1 h2; cases ys <;> cases zs <;> simp_all [listEq]
    | cons x xs ih =>
      intro ys zs hx hy hz h1 h2
      cases ys with
      | nil => simp [listEq] at h1
      | cons y ys =>
        cases zs with
        | nil => simp [listEq] at h2
        | cons z zs =>
          simp only [listEq, Bool.and_eq_true] at h1 h2 ⊢
          exact ⟨h.eq_trans x y z (hx x (List.mem_cons_self _ _))
              (hy y (List.mem_cons_self _ _)) (hz z (List.mem_cons_self _ _)) h1.1 h2.1,
            ih ys zs (fun a ha => hx a (List.mem_cons_of_mem _ ha))
              (fun a ha => hy a (List.mem_cons_of_mem _ ha))
              (fun a ha => hz a (List.mem_cons_of_mem _ ha)) h1.2 h2.2⟩
  lt_irrefl := by
    intro xs
    induction xs with
    | nil => intro _; rfl
    | cons x xs ih =>
      intro hx
      simp [lexLt, h.lt_irrefl x (hx x (List.mem_cons_self _ _)),
        ih (fun a ha => hx a (List.mem_cons_of_mem _ ha))]
  lt_asymm := by
    intro xs
    induction xs with
    | nil => intro ys _ _ _; cases ys <;> rfl
    | cons x xs ih =>
      intro ys hx hy h1
      cases ys with
      | nil => simp [lexLt] at h1
      | cons y ys =>
        have sx := hx x (List.mem_cons_self _ _)
        have sy := hy y (List.mem_cons_self _ _)
        simp only [lexLt] at h1 ⊢
        cases hxy : lt x y with
        | true => simp [h.lt_asymm x y sx sy hxy]
        | false =>
          cases hyx : lt y x with
          | true => simp [hxy, hyx] at h1
          | false =>
            simp only [hxy, hyx] at h1
            simpa using ih ys (fun a ha => hx a (List.mem_cons_of_mem _ ha))
              (fun a ha => hy a (List.mem_cons_of_mem _ ha)) (by simpa using h1)

theorem double.basicLaws_double : BasicLaws double.eq double.lt (fun _ => True) where
  eq_symm := by
    intro x y _ _
    cases x <;> cases y <;> (try simp only [double.eq_fin]) <;> simp [double.eq]
    · exact eq_comm
    · exact eq_comm
  eq_trans := by
    intro x y z _ _ _
    cases x <;> cases y <;> cases z <;> (try simp only [double.eq_fin]) <;>
      simp [double.eq] <;> intros <;> simp_all
  lt_irrefl := by intro x _; cases x <;> simp [double.lt]
  lt_asymm := by
    intro x y _ _
    cases x <;> cases y <;> (try simp only [double.lt_fin]) <;> simp [double.lt] <;>
      first
        | exact le_of_lt
        | (intros; simp_all)

theorem DataType.basicLaws_payload {S : MalType → Prop}
    (h : BasicLaws MalType.eq MalType.lt S) :
    BasicLaws DataType.eq DataType.lt (DataType.Elems S) where
  eq_symm := by
    intro v w hv hw
    cases v <;> cases w <;> try rfl
    · simpa [DataType.eq] using double.basicLaws_double.eq_symm _ _ trivial trivial
    · rename_i a b; cases a <;> cases b <;> rfl
    · simpa using h.lexBasic.eq_symm _ _ hv hw
    · simpa using h.lexBasic.eq_symm _ _ hv hw
    · simp only [DataType.eq, string.eq]; rw [Bool.eq_iff_iff]; simp [eq_comm]
    · simp only [DataType.eq, Atom_t.eq]; rw [Bool.eq_iff_iff]; simp [eq_comm]
  eq_trans := by
    intro v w u hv hw hu h1 h2
    cases v <;> cases w <;> (try simp [DataType.eq] at h1) <;>
      cases u <;> (try simp [DataType.eq] at h2)
    · simp only [DataType.eq] at *
      exact double.basicLaws_double.eq_trans _ _ _ trivial trivial trivial h1 h2
    · simp_all [DataType.eq]
    · rw [seqEq_eq_listEq] at h1 h2
      simp only [DataType.eq_seq]
      exact h.lexBasic.eq_trans _ _ _ hv hw hu h1 h2
    · rw [mapEq_eq_listEq] at h1 h2
      simp only [DataType.eq_map]
      exact h.lexBasic.eq_trans _ _ _ hv hw hu h1 h2
    · simp_all [DataType.eq, string.eq]
    · simp_all [DataType.eq, Atom_t.eq]
    · rfl
  lt_irrefl := by
    intro v hv
    cases v with
    | num d => simpa using double.basicLaws_double.lt_irrefl d trivial
    | bool b => cases b <;> simp
    | seq xs => simpa using h.lexBasic.lt_irrefl xs hv
    | map m => simpa using h.lexBasic.lt_irrefl (Map_t.flat m) hv
    | str s => simpa using string.weakOrder_string.irrefl s trivial
    | atom a => simpa using Atom_t.weakOrder_atom.irrefl a trivial
    | null => simp
  lt_asymm := by
    intro v w hv hw h1
    have l1 := DataType.index_le_of_lt h1
    rcases Nat.lt_or_ge v.index w.index with l2 | l2
    · exact DataType.lt_of_index_gt l2
    · have e1 : v.index = w.index := by omega
      cases v <;> cases w <;> simp [DataType.index] at e1
      · simp only [DataType.lt_num] at *
        exact double.basicLaws_double.lt_asymm _ _ trivial trivial h1
      · simp_all
      · simp only [DataType.lt_seq] at *
        exact h.lexBasic.lt_asymm _ _ hv hw h1
      · simp only [DataType.lt_map] at *
        exact h.lexBasic.lt_asymm _ _ hv hw h1
      · simp only [DataType.lt_str] at *
        exact string.weakOrder_string.asymm trivial trivial h1
      · simp only [DataType.lt_atom] at *
        exact Atom_t.weakOrder_atom.asymm trivial trivial h1
      · simp at h1

theorem DataType.elems_of_size (n : Nat) (i : Type_) (v : DataType) (f : Functor)
    (h2 : sizeOf (MalType.mk i v f) < n + 1) :
    DataType.Elems (fun a => sizeOf a < n) v := by
  simp only [MalType.mk.sizeOf_spec] at h2
  cases v with
  | seq xs =>
    intro x hx
    have := List.sizeOf_lt_of_mem hx
    simp only [DataType.seq.sizeOf_spec] at h2
    omega
  | map m =>
    intro x hx
    have := Map_t.sizeOf_lt_of_mem_flat x hx
    simp only [DataType.map.sizeOf_spec] at h2
    omega
  | num d => trivial
  | bool b => trivial
  | str s => trivial
  | atom a => trivial
  | null => trivial

theorem MalType.basicLaws_below (n : Nat) :
    BasicLaws MalType.eq MalType.lt (fun a => sizeOf a < n) := by
  induction n with
  | zero =>
    exact ⟨fun _ _ h => absurd h (Nat.not_lt_zero _),
      fun _ _ _ h => absurd h (Nat.not_lt_zero _),
      fun _ h => absurd h (Nat.not_lt_zero _),
      fun _ _ h => absurd h (Nat.not_lt_zero _)⟩
  | succ n ih =>
    have hD := DataType.basicLaws_payload ih
    refine ⟨?_, ?_, ?_, ?_⟩
    · rintro ⟨i, v, f⟩ ⟨j, w, g⟩ h1 h2
      simpa using hD.eq_symm v w (DataType.elems_of_size n i v f h1)
        (DataType.elems_of_size n j w g h2)
    · rintro ⟨i, v, f⟩ ⟨j, w, g⟩ ⟨k, u, e⟩ h1 h2 h3
      simpa using hD.eq_trans v w u (DataType.elems_of_size n i v f h1)
        (DataType.elems_of_size n j w g h2) (DataType.elems_of_size n k u e h3)
    · rintro ⟨i, v, f⟩ h1
      simpa using hD.lt_irrefl v (DataType.elems_of_size n i v f h1)
    · rintro ⟨i, v, f⟩ ⟨j, w, g⟩ h1 h2
      simpa using hD.lt_asymm v w (DataType.elems_of_size n i v f h1)
        (DataType.elems_of_size n j w g h2)

/-- For all values: `operator==` is symmetric and transitive, `operator<` is
irreflexive and asymmetric. -/
theorem MalType.basicLaws_value : BasicLaws MalType.eq MalType.lt (fun _ => True) where
  eq_symm := fun x y _ _ =>
    (MalType.basicLaws_below (sizeOf x + sizeOf y + 1)).eq_symm x y (by omega) (by omega)
  eq_trans := fun x y z _ _ _ =>
    (MalType.basicLaws_below (sizeOf x + sizeOf y + sizeOf z + 1)).eq_trans x y z
      (by omega) (by omega) (by omega)
  lt_irrefl := fun x _ =>
    (MalType.basicLaws_below (sizeOf x + 1)).lt_irrefl x (Nat.lt_succ_self _)
  lt_asymm := fun x y _ _ =>
    (MalType.basicLaws_below (sizeOf x + sizeOf y + 1)).lt_asymm x y (by omega) (by omega)

/-! ## Lexicographic comparison, by positions -/

theorem lexLt_iff {α : Type} (lt : α → α → Bool) (xs ys : List α) :
    lexLt lt xs ys = true ↔ FirstLess lt xs ys ∨ UndecidedPrefix lt xs ys := by
  induction xs generalizing ys with
  | nil =>
    cases ys with
    | nil =>
      simp only [lexLt, Bool.false_eq_true, false_iff, not_or]
      constructor
      · rintro ⟨p, q, x, xs2, y, ys2, h1, _⟩
        simp at h1
      · rintro ⟨q, c, r, h1, _⟩
        simp at h1
    | cons y ys =>
      simp only [lexLt, true_iff]
      exact Or.inr ⟨[], y, ys, rfl, List.Forall₂.nil⟩
  | cons x xs ih =>
    cases ys with
    | nil =>
      simp only [lexLt, Bool.false_eq_true, false_iff, not_or]
      constructor
      · rintro ⟨p, q, x, xs2, y, ys2, _, h2, _⟩
        simp at h2
      · rintro ⟨q, c, r, h1, _⟩
        simp at h1
    | cons y ys =>
      simp only [lexLt]
      cases hxy : lt x y with
      | true =>
        simp only [if_true, true_iff]
        exact Or.inl ⟨[], [], x, xs, y, ys, rfl, rfl, List.Forall₂.nil, hxy⟩
      | false =>
        cases hyx : lt y x with
        | true =>
          simp only [Bool.false_eq_true, if_false, if_true, false_iff, not_or]
          constructor
          · rintro ⟨p, q, a, xs2, b, ys2, h1, h2, hF, hlt⟩
            cases hF with
            | nil =>
              simp only [List.nil_append, List.cons.injEq] at h1 h2
              rw [← h1.1, ← h2.1, hxy] at hlt
              cases hlt
            | cons hu _ =>
              simp only [List.cons_append, List.cons.injEq] at h1 h2
              have := hu.2
              rw [← h1.1, ← h2.1, hyx] at this
              cases this
          · rintro ⟨q, c, r, h2, hF⟩
            cases hF with
            | cons hu _ =>
              simp only [List.cons_append, List.cons.injEq] at h2
              have := hu.2
              rw [← h2.1, hyx] at this
              cases this
        | false =>
          simp only [Bool.false_eq_true, if_false]
          rw [ih ys]
          constructor
          · rintro (⟨p, q, a, xs2, b, ys2, h1, h2, hF, hlt⟩ | ⟨q, c, r, h2, hF⟩)
            · exact Or.inl ⟨x :: p, y :: q, a, xs2, b, ys2, by simp [h1], by simp [h2],
                List.Forall₂.cons ⟨hxy, hyx⟩ hF, hlt⟩
            · exact Or.inr ⟨y :: q, c, r, by simp [h2], List.Forall₂.cons ⟨hxy, hyx⟩ hF⟩
          · rintro (⟨p, q, a, xs2, b, ys2, h1, h2, hF, hlt⟩ | ⟨q, c, r, h2, hF⟩)
            · cases hF with
              | nil =>
                simp only [List.nil_append, List.cons.injEq] at h1 h2
                rw [← h1.1, ← h2.1, hxy] at hlt
                cases hlt
              | cons hu hF2 =>
                simp only [List.cons_append, List.cons.injEq] at h1 h2
                exact Or.inl ⟨_, _, a, xs2, b, ys2, h1.2, h2.2, hF2, hlt⟩
            · cases hF with
              | cons hu hF2 =>
                simp only [List.cons_append, List.cons.injEq] at h2
                exact Or.inr ⟨_, c, r, h2.2, hF2⟩

theorem forall₂_undecided_byte {p q : List Nat}
    (h : List.Forall₂ (Undecided (fun a b : Nat => decide (a < b))) p q) : p = q := by
  induction h with
  | nil => rfl
  | cons hu _ ih =>
    have h1 := hu.1
    have h2 := hu.2
    simp only [decide_eq_false_iff_not] at h1 h2
    rw [ih]
    congr 1
    omega

theorem forall₂_undecided_byte_self (p : List Nat) :
    List.Forall₂ (Undecided (fun a b : Nat => decide (a < b))) p p := by
  induction p with
  | nil => exact List.Forall₂.nil
  | cons a p ih => exact List.Forall₂.cons ⟨by simp, by simp⟩ ih

theorem string.lt_iff_textLess (s t : string) : string.lt s t = true ↔ TextLess s t := by
  unfold string.lt TextLess
  rw [lexLt_iff]
  constructor
  · rintro (⟨p, q, a, s2, b, t2, h1, h2, hF, hlt⟩ | ⟨q, c, r, h2, hF⟩)
    · have := forall₂_undecided_byte hF
      subst this
      exact Or.inl ⟨p, a, s2, b, t2, h1, h2, by simpa using hlt⟩
    · have := forall₂_undecided_byte hF
      subst this
      exact Or.inr ⟨c, r, h2⟩
  · rintro (⟨p, a, s2, b, t2, h1, h2, hlt⟩ | ⟨c, r, h2⟩)
    · exact Or.inl ⟨p, p, a, s2, b, t2, h1, h2, forall₂_undecided_byte_self p,
        by simpa using hlt⟩
    · exact Or.inr ⟨s, c, r, h2, forall₂_undecided_byte_self s⟩

theorem forall₂_undecided_iff_eq {xs q : List MalType}
    (hx : ∀ x ∈ xs, x.noNaN = true) (hq : ∀ y ∈ q, y.noNaN = true) :
    List.Forall₂ (Undecided MalType.lt) xs q ↔
      List.Forall₂ (fun x y => MalType.eq x y = true) xs q := by
  induction xs generalizing q with
  | nil => cases q <;> simp
  | cons x xs ih =>
    cases q with
    | nil => simp
    | cons y q =>
      have sx := hx x (List.mem_cons_self _ _)
      have sy := hq y (List.mem_cons_self _ _)
      have ih2 := ih (q := q) (fun a ha => hx a (List.mem_cons_of_mem _ ha))
        (fun a ha => hq a (List.mem_cons_of_mem _ ha))
      have ht := MalType.weakOrder_value.tricho x y sx sy
      simp only [List.forall₂_cons, ih2, Undecided, ht]
      simp

/-! ## Division, checked against known binary64 results -/

theorem double.div_one_three :
    double.div (.fin false 1 0) (.fin false 3 0) = .fin false 6004799503160661 (-54) := by
  decide

theorem double.div_one_ten :
    double.div (.fin false 1 0) (.fin false 10 0) = .fin false 7205759403792794 (-56) := by
  decide

theorem double.div_special :
    double.div (.fin false 0 0) (.fin false 0 0) = .nan ∧
    double.div (.fin true 1 0) (.fin false 0 0) = .inf true ∧
    double.div (.fin false 1 971) (.fin false 1 (-1074)) = .inf false ∧
    double.div (.fin false 3 (-1074)) (.fin false 2 0) = .fin false 2 (-1074) := by
  decide

/-! ## Classification of numbers -/

theorem double.rat_ofInt (t : Int) :
    double.rat (decide (t < 0)) t.natAbs 0 = (t : ℚ) := by
  unfold double.rat
  by_cases h : t < 0
  · have h2 : (t.natAbs : ℚ) = -(t : ℚ) := by
      have : (t.natAbs : ℤ) = -t := by omega
      rw [← Int.cast_natCast, this, Int.cast_neg]
    simp only [h, decide_True, if_true, zpow_zero, mul_one]
    rw [h2, neg_neg]
  · have h2 : (t.natAbs : ℚ) = (t : ℚ) := by
      have : (t.natAbs : ℤ) = t := by omega
      rw [← Int.cast_natCast, this]
    simp only [h, decide_False, Bool.false_eq_true, if_false, zpow_zero, mul_one]
    rw [h2]

theorem double.trunc_long_of_rat (s : Bool) (m : Nat) (e : Int) (n : Int)
    (hv : double.rat s m e = (n : ℚ)) (h1 : -(2 : Int) ^ 63 ≤ n) (h2 : n < (2 : Int) ^ 63) :
    double.trunc_long (.fin s m e) = some n := by
  have key : (if s then
      -(((if 0 ≤ e then m * 2 ^ e.toNat else m / 2 ^ (-e).toNat : Nat)) : Int)
      else (((if 0 ≤ e then m * 2 ^ e.toNat else m / 2 ^ (-e).toNat : Nat)) : Int)) = n := by
    by_cases he : 0 ≤ e
    · have hp : (2 : ℚ) ^ e = (((2 : Nat) ^ e.toNat : Nat) : ℚ) := by
        conv_lhs => rw [← Int.toNat_of_nonneg he]
        rw [zpow_natCast]; push_cast; rfl
      simp only [he, if_true]
      unfold double.rat at hv
      rw [hp] at hv
      cases s
      · simp only [Bool.false_eq_true, if_false] at hv ⊢
        exact_mod_cast hv
      · simp only [if_true] at hv ⊢
        have : ((-((m * 2 ^ e.toNat : Nat) : Int) : Int) : ℚ) = (n : ℚ) := by
          push_cast; rw [← hv]; push_cast; ring
        exact_mod_cast this
    · have hk : 0 ≤ -e := by omega
      have hp : (2 : ℚ) ^ e = ((((2 : Nat) ^ (-e).toNat : Nat) : ℚ))⁻¹ := by
        have : e = -((-e).toNat : Int) := by rw [Int.toNat_of_nonneg hk]; ring
        conv_lhs => rw [this]
        rw [zpow_neg, zpow_natCast]; push_cast; rfl
      have hpos : ((((2 : Nat) ^ (-e).toNat : Nat) : ℚ)) ≠ 0 := by positivity
      have hposZ : (((2 : Nat) ^ (-e).toNat : Nat) : Int) ≠ 0 := by positivity
      simp only [he, if_false]
      unfold double.rat at hv
      rw [hp] at hv
      cases s
      · simp only [Bool.false_eq_true, if_false] at hv ⊢
        have h3 : (m : ℚ) = (n : ℚ) * (((2 : Nat) ^ (-e).toNat : Nat) : ℚ) := by
          rw [← hv]; field_simp
        have h4 : (m : Int) = n * (((2 : Nat) ^ (-e).toNat : Nat) : Int) := by
          exact_mod_cast h3
        rw [Int.natCast_div, h4, Int.mul_ediv_cancel _ hposZ]
      · simp only [if_true] at hv ⊢
        have h3 : (m : ℚ) = (-n : ℚ) * (((2 : Nat) ^ (-e).toNat : Nat) : ℚ) := by
          have : (n : ℚ) = -(m : ℚ) * ((((2 : Nat) ^ (-e).toNat : Nat) : ℚ))⁻¹ := hv.symm
          rw [this]; field_simp
        have h4 : (m : Int) = (-n) * (((2 : Nat) ^ (-e).toNat : Nat) : Int) := by
          exact_mod_cast h3
        rw [Int.natCast_div, h4, Int.mul_ediv_cancel _ hposZ]
        ring
  unfold double.trunc_long
  simp only [key, h1, h2, and_self, if_true]

theorem double.roundTrips_iff (d : double) :
    double.RoundTrips d ↔
      ∃ s m e, ∃ n : Int, d = .fin s m e ∧ double.rat s m e = (n : ℚ) ∧
        -(2 : Int) ^ 63 ≤ n ∧ n < (2 : Int) ^ 63 := by
  constructor
  · rintro ⟨t, h1, h2⟩
    cases d with
    | nan => simp [double.trunc_long] at h1
    | inf s => simp [double.trunc_long] at h1
    | fin s m e =>
      refine ⟨s, m, e, t, rfl, ?_, ?_⟩
      · unfold double.ofInt at h2
        rw [double.eq_fin, double.rat_ofInt] at h2
        exact (of_decide_eq_true h2).symm
      · have aux : ∀ v : Int,
            (if -(2 : Int) ^ 63 ≤ v ∧ v < (2 : Int) ^ 63 then some v else none) = some t →
              -(2 : Int) ^ 63 ≤ t ∧ t < (2 : Int) ^ 63 := by
          intro v hv
          by_cases hc : -(2 : Int) ^ 63 ≤ v ∧ v < (2 : Int) ^ 63
          · rw [if_pos hc] at hv
            cases hv
            exact hc
          · rw [if_neg hc] at hv
            cases hv
        exact aux _ h1
  · rintro ⟨s, m, e, n, rfl, hv, h1, h2⟩
    refine ⟨n, double.trunc_long_of_rat s m e n hv h1 h2, ?_⟩
    unfold double.ofInt
    rw [double.eq_fin, double.rat_ofInt]
    exact decide_eq_true hv.symm

theorem Types.get_number_type_int_iff (d : double) :
    Types.get_number_type d = .INT ↔ double.RoundTrips d := by
  unfold Types.get_number_type double.RoundTrips
  cases h : double.trunc_long d with
  | none => simp
  | some t =>
    by_cases h2 : double.eq (double.ofInt t) d = true
    · simp [h2]
    · simp [h2]

/-! ## The entries of a tree under insertion -/

theorem Rb_path.plug_toList {α β : Type} (p : Rb_path α β) (x : Rb_tree α β) :
    (p.plug x).toList = p.before ++ x.toList ++ p.after := by
  induction p generalizing x with
  | root => simp [Rb_path.plug, Rb_path.before, Rb_path.after]
  | left c p k v r ih => simp [Rb_path.plug, Rb_path.before, Rb_path.after, ih, Rb_tree.toList]
  | right c l k v p ih => simp [Rb_path.plug, Rb_path.before, Rb_path.after, ih, Rb_tree.toList]

theorem Rb_tree.set_color_toList {α β : Type} (c : Rb_tree_color) (t : Rb_tree α β) :
    (t.set_color c).toList = t.toList := by
  cases t <;> simp [Rb_tree.set_color, Rb_tree.toList]

theorem Rb_tree.rebalance_toList {α β : Type} (x : Rb_tree α β) (p : Rb_path α β) :
    (Rb_tree.rebalance x p).toList = p.before ++ x.toList ++ p.after := by
  induction x, p using Rb_tree.rebalance.induct <;>
    simp_all [Rb_tree.rebalance, Rb_path.plug_toList, Rb_path.before, Rb_path.after,
      Rb_tree.toList, Rb_tree.set_color_toList]

theorem getLast?_append_cons {γ : Type} (l : List γ) (x : γ) (B : List γ) :
    (l ++ x :: B).getLast? = some (B.getLast?.getD x) := by
  rcases List.eq_nil_or_concat B with rfl | ⟨B2, b, rfl⟩
  · simp
  · rw [List.concat_eq_append, show l ++ x :: (B2 ++ [b]) = (l ++ x :: B2) ++ [b] by simp]
    simp only [List.getLast?_concat]
    simp

theorem Rb_tree.descend_spec {α β : Type} (lt : α → α → Bool) (k : α)
    (t : Rb_tree α β) (p : Rb_path α β) (j : Option α) :
    ∃ B A : List (α × β), t.toList = B ++ A ∧
      (Rb_tree.descend lt k t p j).1.before = p.before ++ B ∧
      (Rb_tree.descend lt k t p j).1.after = A ++ p.after ∧
      (Rb_tree.descend lt k t p j).2 =
        (match B.getLast? with
         | some e => some e.1
         | none => j) ∧
      (∀ e, B.getLast? = some e → lt k e.1 = false) ∧
      (∀ e, A.head? = some e → lt k e.1 = true) := by
  induction t generalizing p j with
  | nil => exact ⟨[], [], by simp [Rb_tree.toList, Rb_tree.descend]⟩
  | node c l kx vx r ihl ihr =>
    by_cases h : lt k kx = true
    · obtain ⟨B, A, h1, h2, h3, h4, h5, h6⟩ := ihl (.left c p kx vx r) j
      refine ⟨B, A ++ (kx, vx) :: r.toList, ?_, ?_, ?_, ?_, h5, ?_⟩
      · simp [Rb_tree.toList, h1]
      · simp [Rb_tree.descend, h, h2, Rb_path.before]
      · simp [Rb_tree.descend, h, h3, Rb_path.after]
      · simp [Rb_tree.descend, h, h4]
      · intro e he
        cases A with
        | nil => simp at he; subst he; exact h
        | cons a A => simp at he; subst he; exact h6 a (by simp)
    · obtain ⟨B, A, h1, h2, h3, h4, h5, h6⟩ := ihr (.right c l kx vx p) (some kx)
      have hf : lt k kx = false := by simpa using h
      refine ⟨l.toList ++ (kx, vx) :: B, A, ?_, ?_, ?_, ?_, ?_, h6⟩
      · simp [Rb_tree.toList, h1]
      · simp [Rb_tree.descend, h, h2, Rb_path.before]
      · simp [Rb_tree.descend, h, h3, Rb_path.after]
      · simp only [Rb_tree.descend, hf, getLast?_append_cons, Bool.false_eq_true, if_false]
        rw [h4]
        cases B.getLast? <;> simp
      · intro e he
        rw [getLast?_append_cons] at he
        cases hB : B.getLast? with
        | none => simp [hB] at he; subst he; exact hf
        | some b => simp [hB] at he; subst he; exact h5 b hB

theorem Rb_tree.insert_unique_spec {α β : Type} (lt : α → α → Bool) (k : α) (v : β)
    (t : Rb_tree α β) :
    ∃ B A : List (α × β), t.toList = B ++ A ∧
      (∀ e, B.getLast? = some e → lt k e.1 = false) ∧
      (∀ e, A.head? = some e → lt k e.1 = true) ∧
      ((∃ e, B.getLast? = some e ∧ lt e.1 k = false ∧
          Rb_tree.insert_unique lt k v t = t) ∨
        ((∀ e, B.getLast? = some e → lt e.1 k = true) ∧
          (Rb_tree.insert_unique lt k v t).toList = B ++ (k, v) :: A)) := by
  obtain ⟨B, A, h1, h2, h3, h4, h5, h6⟩ := Rb_tree.descend_spec lt k t .root none
  refine ⟨B, A, h1, h5, h6, ?_⟩
  have hins : ((Rb_tree.rebalance (.node .red .nil k v .nil)
      (Rb_tree.descend lt k t .root none).1).set_color .black).toList =
      B ++ (k, v) :: A := by
    rw [Rb_tree.set_color_toList, Rb_tree.rebalance_toList, h2, h3]
    simp [Rb_path.before, Rb_path.after, Rb_tree.toList]
  unfold Rb_tree.insert_unique
  rcases hd : Rb_tree.descend lt k t .root none with ⟨p, j⟩
  rw [hd] at h4 hins
  simp only at h4 hins ⊢
  cases hB : B.getLast? with
  | none =>
    rw [hB] at h4
    simp only at h4
    subst h4
    right
    exact ⟨by simp, hins⟩
  | some e =>
    rw [hB] at h4
    simp only at h4
    subst h4
    simp only
    by_cases hlt : lt e.1 k = true
    · right
      simp only [hlt, if_true]
      refine ⟨?_, hins⟩
      intro e2 he2
      cases he2
      exact hlt
    · left
      simp only [hlt]
      exact ⟨e, rfl, by simpa using hlt, by simp⟩

theorem Rb_tree.lower_bound_spec {α β : Type} (lt : α → α → Bool) (k : α)
    (t : Rb_tree α β) (y : Option (α × β)) :
    ∃ B A : List (α × β), t.toList = B ++ A ∧
      Rb_tree.lower_bound lt k t y =
        (match A.head? with
         | some e => some e
         | none => y) ∧
      (∀ e, B.getLast? = some e → lt e.1 k = true) ∧
      (∀ e, A.head? = some e → lt e.1 k = false) := by
  induction t generalizing y with
  | nil => exact ⟨[], [], by simp [Rb_tree.toList, Rb_tree.lower_bound]⟩
  | node c l kx vx r ihl ihr =>
    by_cases h : lt kx k = true
    · obtain ⟨B, A, h1, h2, h3, h4⟩ := ihr y
      refine ⟨l.toList ++ (kx, vx) :: B, A, ?_, ?_, ?_, h4⟩
      · simp [Rb_tree.toList, h1]
      · simp [Rb_tree.lower_bound, h, h2]
      · intro e he
        rw [getLast?_append_cons] at he
        cases hB : B.getLast? with
        | none => simp [hB] at he; subst he; exact h
        | some b => simp [hB] at he; subst he; exact h3 b hB
    · obtain ⟨B, A, h1, h2, h3, h4⟩ := ihl (some (kx, vx))
      have hf : lt kx k = false := by simpa using h
      refine ⟨B, A ++ (kx, vx) :: r.toList, ?_, ?_, h3, ?_⟩
      · simp [Rb_tree.toList, h1]
      · simp only [Rb_tree.lower_bound, h, h2]
        cases A <;> simp
      · intro e he
        cases A with
        | nil => simp at he; subst he; exact hf
        | cons a A => simp at he; subst he; exact h4 a (by simp)

theorem Rb_tree.insert_unique_mem {α β : Type} (lt : α → α → Bool) (k : α) (v : β)
    (t : Rb_tree α β) :
    ∀ e ∈ (Rb_tree.insert_unique lt k v t).toList, e = (k, v) ∨ e ∈ t.toList := by
  obtain ⟨B, A, h1, -, -, h4⟩ := Rb_tree.insert_unique_spec lt k v t
  rcases h4 with ⟨e, -, -, h⟩ | ⟨-, h⟩
  · rw [h]; exact fun e he => Or.inr he
  · rw [h, h1]
    intro e he
    simp only [List.mem_append, List.mem_cons] at he ⊢
    tauto

theorem Rb_tree.insert_unique_chain' {α β : Type} (lt : α → α → Bool) (k : α) (v : β)
    (t : Rb_tree α β)
    (h : List.Chain' (fun x y : α × β => lt x.1 y.1 = true) t.toList) :
    List.Chain' (fun x y : α × β => lt x.1 y.1 = true)
      (Rb_tree.insert_unique lt k v t).toList := by
  obtain ⟨B, A, h1, -, h3, h4⟩ := Rb_tree.insert_unique_spec lt k v t
  rcases h4 with ⟨e, -, -, h5⟩ | ⟨h5, h6⟩
  · rw [h5]; exact h
  · rw [h6]
    rw [h1, List.chain'_append] at h
    rw [List.chain'_append, List.chain'_cons']
    refine ⟨h.1, ⟨?_, h.2.1⟩, ?_⟩
    · intro y hy
      exact h3 y hy
    · intro x hx y hy
      simp only [List.head?_cons, Option.mem_def, Option.some.injEq] at hy
      subst hy
      exact h5 x hx

theorem Rb_tree.lower_bound_congr {α β : Type} (lt : α → α → Bool) (k k2 : α)
    (hc : ∀ a, lt a k2 = lt a k) (t : Rb_tree α β) (y : Option (α × β)) :
    Rb_tree.lower_bound lt k2 t y = Rb_tree.lower_bound lt k t y := by
  induction t generalizing y with
  | nil => rfl
  | node c l kx vx r ihl ihr => simp only [Rb_tree.lower_bound, hc, ihl, ihr]

theorem Rb_tree.find_congr {α β : Type} (lt : α → α → Bool) (k k2 : α)
    (hc1 : ∀ a, lt a k2 = lt a k) (hc2 : ∀ a, lt k2 a = lt k a) (t : Rb_tree α β) :
    Rb_tree.find lt k2 t = Rb_tree.find lt k t := by
  simp only [Rb_tree.find, Rb_tree.lower_bound_congr lt k k2 hc1, hc2]

theorem pairwise_split {γ : Type} {R : γ → γ → Prop} {B A : List γ} {x y : γ}
    (h : List.Pairwise R (B ++ A)) (hx : x ∈ B) (hy : y ∈ A) : R x y :=
  (List.pairwise_append.mp h).2.2 x hx y hy

theorem Rb_tree.insert_unique_present {α β : Type} (lt : α → α → Bool)
    (hasym : ∀ a b, lt a b = true → lt b a = false) (k2 : α) (v : β) (t : Rb_tree α β)
    (hX : List.Pairwise (fun x y : α × β => lt x.1 k2 = false → lt x.1 y.1 = true)
      t.toList)
    (k : α) (w : β) (hc1 : ∀ a, lt a k2 = lt a k) (hc2 : ∀ a, lt k2 a = lt k a)
    (hk : (k, w) ∈ t.toList) :
    Rb_tree.insert_unique lt k2 v t = t := by
  have hirr : ∀ a, lt a a = false := by
    intro a
    cases h : lt a a with
    | false => rfl
    | true => have := hasym a a h; rw [h] at this; cases this
  have hkk : lt k k2 = false := by rw [hc1]; exact hirr k
  obtain ⟨B, A, h1, h2, h3, h4⟩ := Rb_tree.insert_unique_spec lt k2 v t
  rcases h4 with ⟨e, -, -, h5⟩ | ⟨h5, -⟩
  · exact h5
  · exfalso
    rw [h1] at hk hX
    rcases List.mem_append.mp hk with hB | hA
    · rcases List.eq_nil_or_concat B with rfl | ⟨B2, e, rfl⟩
      · cases hB
      · rw [List.concat_eq_append] at hB hX h2 h5
        have he1 := h2 e (by simp)
        have he2 := h5 e (by simp)
        rcases List.mem_append.mp hB with hB2 | he
        · have hp : List.Pairwise _ (B2 ++ [e]) := (List.pairwise_append.mp hX).1
          have h6 := pairwise_split hp hB2 (List.mem_singleton_self e) hkk
          rw [← hc2, he1] at h6
          cases h6
        · simp only [List.mem_singleton] at he
          subst he
          rw [hkk] at he2
          cases he2
    · cases A with
      | nil => cases hA
      | cons h A2 =>
        have hh := h3 h (by simp)
        have hp : List.Pairwise _ (h :: A2) := (List.pairwise_append.mp hX).2.1
        rcases List.mem_cons.mp hA with rfl | hA2
        · rw [hc2] at hh
          rw [hirr] at hh
          cases hh
        · have h6 := (List.pairwise_cons.mp hp).1 (k, w) hA2 (hasym _ _ hh)
          rw [← hc1, hasym _ _ hh] at h6
          cases h6

theorem Rb_tree.find_present {α β : Type} (lt : α → α → Bool)
    (hasym : ∀ a b, lt a b = true → lt b a = false) (k2 : α) (t : Rb_tree α β)
    (hX : List.Pairwise (fun x y : α × β => lt x.1 k2 = false → lt x.1 y.1 = true)
      t.toList)
    (k : α) (w : β) (hc1 : ∀ a, lt a k2 = lt a k) (hc2 : ∀ a, lt k2 a = lt k a)
    (hk : (k, w) ∈ t.toList) :
    Rb_tree.find lt k2 t = some (k, w) := by
  have hirr : ∀ a, lt a a = false := by
    intro a
    cases h : lt a a with
    | false => rfl
    | true => have := hasym a a h; rw [h] at this; cases this
  have hkk : lt k k2 = false := by rw [hc1]; exact hirr k
  have hkk2 : lt k2 k = false := by rw [hc2]; exact hirr k
  obtain ⟨B, A, h1, h2, h3, h4⟩ := Rb_tree.lower_bound_spec lt k2 t none
  rw [h1] at hk hX
  have hA : (k, w) ∈ A := by
    rcases List.mem_append.mp hk with hB | hA
    · exfalso
      rcases List.eq_nil_or_concat B with rfl | ⟨B2, e, rfl⟩
      · cases hB
      · rw [List.concat_eq_append] at hB hX h3
        have he1 := h3 e (by simp)
        rcases List.mem_append.mp hB with hB2 | he
        · have hp : List.Pairwise _ (B2 ++ [e]) := (List.pairwise_append.mp hX).1
          have h6 := pairwise_split hp hB2 (List.mem_singleton_self e) hkk
          have h7 := hasym _ _ h6
          rw [← hc1, he1] at h7
          cases h7
        · simp only [List.mem_singleton] at he
          subst he
          rw [hkk] at he1
          cases he1
    · exact hA
  cases A with
  | nil => cases hA
  | cons h A2 =>
    have hh := h4 h (by simp)
    have hp : List.Pairwise _ (h :: A2) := (List.pairwise_append.mp hX).2.1
    have hhk : h = (k, w) := by
      rcases List.mem_cons.mp hA with rfl | hA2
      · rfl
      · exfalso
        have h6 := (List.pairwise_cons.mp hp).1 (k, w) hA2 hh
        rw [← hc1, hh] at h6
        cases h6
    subst hhk
    simp only [Rb_tree.find, h2, List.head?_cons, hkk2]
    simp

/-! ## Ascending lists of keys -/

theorem chain_lt_forall (a : MalType) (l : List MalType) (ha : a.noNaN = true)
    (hl : ∀ x ∈ l, x.noNaN = true)
    (h : List.Chain (fun x y => MalType.lt x y = true) a l) :
    ∀ b ∈ l, MalType.lt a b = true := by
  induction l generalizing a with
  | nil => intro b hb; cases hb
  | cons c l ih =>
    simp only [List.chain_cons] at h
    have hc := hl c (List.mem_cons_self _ _)
    intro b hb
    rcases List.mem_cons.mp hb with rfl | hb
    · exact h.1
    · have h3 := ih c hc (fun x hx => hl x (List.mem_cons_of_mem _ hx)) h.2 b hb
      exact MalType.weakOrder_value.trans a c b ha hc
        (hl b (List.mem_cons_of_mem _ hb)) h.1 h3

theorem chain'_lt_pairwise (l : List MalType) (hl : ∀ x ∈ l, x.noNaN = true)
    (h : List.Chain' (fun x y => MalType.lt x y = true) l) :
    List.Pairwise (fun x y => MalType.lt x y = true) l := by
  induction l with
  | nil => exact List.Pairwise.nil
  | cons a l ih =>
    have ha := hl a (List.mem_cons_self _ _)
    have hl2 : ∀ x ∈ l, x.noNaN = true := fun x hx => hl x (List.mem_cons_of_mem _ hx)
    simp only [List.Chain'] at h
    refine List.Pairwise.cons (chain_lt_forall a l ha hl2 h) (ih hl2 ?_)
    cases l with
    | nil => simp
    | cons c l =>
      simp only [List.chain_cons] at h
      exact h.2

/-! ## Keys with the same payload -/

theorem MalType.lt_congr_right {k k2 : MalType} (h : k2.val = k.val) (a : MalType) :
    MalType.lt a k2 = MalType.lt a k := by
  rw [MalType.lt_val a k2, MalType.lt_val a k, h]

theorem MalType.lt_congr_left {k k2 : MalType} (h : k2.val = k.val) (a : MalType) :
    MalType.lt k2 a = MalType.lt k a := by
  rw [MalType.lt_val k2 a, MalType.lt_val k a, h]

theorem MalType.not_lt_of_same_val {k k2 : MalType} (h : k2.val = k.val) :
    MalType.lt k k2 = false ∧ MalType.lt k2 k = false := by
  constructor
  · rw [MalType.lt_congr_right h k]
    exact MalType.basicLaws_value.lt_irrefl k trivial
  · rw [MalType.lt_congr_left h k]
    exact MalType.basicLaws_value.lt_irrefl k trivial

theorem pairwise_lt_ne (l : List MalType) (hl : ∀ x ∈ l, x.noNaN = true)
    (h : List.Pairwise (fun x y => MalType.lt x y = true) l) :
    List.Pairwise (fun x y => MalType.eq x y = false) l := by
  induction l with
  | nil => exact List.Pairwise.nil
  | cons a l ih =>
    have ha := hl a (List.mem_cons_self _ _)
    have hl2 : ∀ x ∈ l, x.noNaN = true := fun x hx => hl x (List.mem_cons_of_mem _ hx)
    rw [List.pairwise_cons] at h ⊢
    refine ⟨?_, ih hl2 h.2⟩
    intro b hb
    have h1 := MalType.weakOrder_value.tricho a b ha (hl2 b hb)
    rw [h.1 b hb] at h1
    simpa using h1

/-! ## Maps of values built by insertion -/

theorem MalType.lt_asymm_value (a b : MalType) (h : MalType.lt a b = true) :
    MalType.lt b a = false :=
  MalType.basicLaws_value.lt_asymm a b trivial trivial h

theorem std_map.insert_chain' (k v : MalType) (m : std_map)
    (h : List.Chain' (fun x y => MalType.lt x y = true) (Map_t.keys m.entries)) :
    List.Chain' (fun x y => MalType.lt x y = true)
      (Map_t.keys (std_map.insert k v m).entries) := by
  simp only [Map_t.keys, std_map.entries, List.chain'_map] at h ⊢
  exact Rb_tree.insert_unique_chain' MalType.lt k v m h

theorem std_map.foldl_chain' (entries : List (MalType × MalType)) (m : std_map)
    (h : List.Chain' (fun x y => MalType.lt x y = true) (Map_t.keys m.entries)) :
    List.Chain' (fun x y => MalType.lt x y = true)
      (Map_t.keys (entries.foldl (fun m p => std_map.insert p.1 p.2 m) m).entries) := by
  induction entries generalizing m with
  | nil => exact h
  | cons p entries ih => exact ih _ (std_map.insert_chain' p.1 p.2 m h)

theorem std_map.ofList_chain' (entries : List (MalType × MalType)) :
    List.Chain' (fun x y => MalType.lt x y = true)
      (Map_t.keys (std_map.ofList entries).entries) :=
  std_map.foldl_chain' entries Rb_tree.nil
    (by simp [Map_t.keys, std_map.entries, Rb_tree.toList])

theorem std_map.foldl_mem (entries : List (MalType × MalType)) (m : std_map) :
    ∀ e ∈ (entries.foldl (fun m p => std_map.insert p.1 p.2 m) m).entries,
      e ∈ entries ∨ e ∈ m.entries := by
  induction entries generalizing m with
  | nil => exact fun e he => Or.inr he
  | cons p entries ih =>
    intro e he
    rcases ih _ e he with h | h
    · exact Or.inl (List.mem_cons_of_mem _ h)
    · rcases Rb_tree.insert_unique_mem MalType.lt p.1 p.2 m e h with h2 | h2
      · exact Or.inl (by rw [h2]; exact List.mem_cons_self _ _)
      · exact Or.inr h2

theorem std_map.ofList_mem (entries : List (MalType × MalType)) :
    ∀ e ∈ (std_map.ofList entries).entries, e ∈ entries := by
  intro e he
  rcases std_map.foldl_mem entries Rb_tree.nil e he with h | h
  · exact h
  · simp [std_map.entries, Rb_tree.toList] at h

theorem std_map.ofList_keys_noNaN (entries : List (MalType × MalType))
    (hk : ∀ p ∈ entries, p.1.noNaN = true) :
    ∀ x ∈ Map_t.keys (std_map.ofList entries).entries, x.noNaN = true := by
  intro x hx
  simp only [Map_t.keys, List.mem_map] at hx
  obtain ⟨e, he, rfl⟩ := hx
  exact hk e (std_map.ofList_mem entries e he)

theorem std_map.ofList_pairwise (entries : List (MalType × MalType))
    (hk : ∀ p ∈ entries, p.1.noNaN = true) :
    List.Pairwise (fun x y => MalType.lt x y = true)
      (Map_t.keys (std_map.ofList entries).entries) :=
  chain'_lt_pairwise _ (std_map.ofList_keys_noNaN entries hk)
    (std_map.ofList_chain' entries)

/-! ## Keys that are texts, atoms or nil

A key whose payload is a text, an atom or the empty alternative is greater than
every number, boolean, sequence and map, and the keys that are not less than it
contain no NaN: in an ascending list they ascend towards every later key. -/

theorem MalType.noNaN_of_index {x : MalType} (h : 4 ≤ x.val.index) : x.noNaN = true := by
  cases x with
  | mk id val func =>
    cases val <;> simp [MalType.val, DataType.index] at h <;>
      simp [MalType.noNaN, DataType.noNaN]

theorem chain_index (a : MalType) (l : List MalType) (ha : 4 ≤ a.val.index)
    (h : List.Chain (fun x y => MalType.lt x y = true) a l) :
    ∀ b ∈ l, 4 ≤ b.val.index := by
  induction l generalizing a with
  | nil => intro b hb; cases hb
  | cons c l ih =>
    simp only [List.chain_cons] at h
    have hc : 4 ≤ c.val.index := by
      have := h.1
      rw [MalType.lt_val] at this
      exact Nat.le_trans ha (DataType.index_le_of_lt this)
    intro b hb
    rcases List.mem_cons.mp hb with rfl | hb
    · exact hc
    · exact ih c hc h.2 b hb

theorem chain'_upper_pairwise (k2 : MalType) (hk2 : 4 ≤ k2.val.index) (l : List MalType)
    (h : List.Chain' (fun x y => MalType.lt x y = true) l) :
    List.Pairwise (fun x y => MalType.lt x k2 = false → MalType.lt x y = true) l := by
  induction l with
  | nil => exact List.Pairwise.nil
  | cons a l ih =>
    simp only [List.Chain'] at h
    have ht : List.Chain' (fun x y => MalType.lt x y = true) l := by
      cases l with
      | nil => simp
      | cons c l =>
        simp only [List.chain_cons] at h
        exact h.2
    refine List.Pairwise.cons ?_ (ih ht)
    intro b hb hlt
    have ha : 4 ≤ a.val.index := by
      by_contra hc
      rw [MalType.lt_val, DataType.lt_of_index_lt (by omega)] at hlt
      cases hlt
    have hl := chain_index a l ha h
    exact chain_lt_forall a l (MalType.noNaN_of_index ha)
      (fun x hx => MalType.noNaN_of_index (hl x hx)) h b hb

theorem std_map.ofList_upper (k2 : MalType) (hk2 : 4 ≤ k2.val.index)
    (entries : List (MalType × MalType)) :
    List.Pairwise
      (fun x y : MalType × MalType => MalType.lt x.1 k2 = false → MalType.lt x.1 y.1 = true)
      (Rb_tree.toList (std_map.ofList entries)) := by
  have h := chain'_upper_pairwise k2 hk2 _ (std_map.ofList_chain' entries)
  simpa only [Map_t.keys, std_map.entries, List.pairwise_map] using h

theorem std_map.insert_same_payload (k2 v : MalType) (m : std_map)
    (hX : List.Pairwise
      (fun x y : MalType × MalType => MalType.lt x.1 k2 = false → MalType.lt x.1 y.1 = true)
      (Rb_tree.toList m))
    (k : MalType) (hv : k2.val = k.val) (hk : k ∈ Map_t.keys m.entries) :
    std_map.insert k2 v m = m := by
  simp only [Map_t.keys, List.mem_map] at hk
  obtain ⟨⟨k3, w⟩, he, rfl⟩ := hk
  exact Rb_tree.insert_unique_present MalType.lt MalType.lt_asymm_value k2 v m hX k3 w
    (MalType.lt_congr_right hv) (MalType.lt_congr_left hv) he

theorem std_map.find_same_payload (k2 : MalType) (m : std_map)
    (hX : List.Pairwise
      (fun x y : MalType × MalType => MalType.lt x.1 k2 = false → MalType.lt x.1 y.1 = true)
      (Rb_tree.toList m))
    (k w : MalType) (hv : k2.val = k.val) (hk : (k, w) ∈ m.entries) :
    std_map.find k2 m = some (k, w) :=
  Rb_tree.find_present MalType.lt MalType.lt_asymm_value k2 m hX k w
    (MalType.lt_congr_right hv) (MalType.lt_congr_left hv) hk

theorem std_map.find_same (k k2 : MalType) (hv : k2.val = k.val) (m : std_map) :
    std_map.find k2 m = std_map.find k m :=
  Rb_tree.find_congr MalType.lt k k2 (MalType.lt_congr_right hv) (MalType.lt_congr_left hv) m

/-! ## Comparisons of integers and of pairs -/

theorem double.scaled_ofInt (k : Int) :
    double.scaled (decide (k < 0)) k.natAbs 0 (min 0 0) = k := by
  simp only [double.scaled, min_self, sub_self, Int.toNat_zero, pow_zero, mul_one]
  by_cases hk : k < 0
  · simp only [hk, decide_True, if_true]; omega
  · simp only [hk, decide_False, Bool.false_eq_true, if_false]; omega

theorem MalType.lt_Int (m n : long) :
    MalType.lt (Types.Int m) (Types.Int n) = decide (m < n) := by
  simp only [Types.Int, MalType.ofVal, MalType.lt_mk, DataType.lt_num, double.ofInt,
    double.lt, double.scaled_ofInt]

theorem MalType.lt_nan_Int (n : long) :
    MalType.lt (Types.Float double.nan) (Types.Int n) = false ∧
    MalType.lt (Types.Int n) (Types.Float double.nan) = false := by
  simp [Types.Int, Types.Float, MalType.ofVal, double.lt, double.ofInt]

theorem MalType.lt_List_pair (a b c d : MalType) :
    MalType.lt (Types.List [a, b]) (Types.List [c, d]) =
      (if MalType.lt a c then true else if MalType.lt c a then false
       else MalType.lt b d) := by
  simp only [Types.List, MalType.ofVal, MalType.lt_mk, DataType.lt_seq, lexLt]
  by_cases h1 : MalType.lt a c = true <;> by_cases h2 : MalType.lt c a = true <;>
    by_cases h3 : MalType.lt b d = true <;> by_cases h4 : MalType.lt d b = true <;>
    simp [h1, h2, h3, h4]

/-! ## The alternatives of the payload -/

theorem DataType.get_of (k : Kind) (x : k.type) :
    DataType.get k (DataType.of k x) = .ok x := by
  cases k <;> rfl

theorem DataType.get_of_kind_ne (k : Kind) (v : DataType) (h : v.kind ≠ k) :
    DataType.get k v = .error .bad_variant_access := by
  cases k <;> cases v <;> first | rfl | exact absurd rfl h

theorem DataType.get_error (k : Kind) (v : DataType) (e : Exception)
    (h : DataType.get k v = .error e) : e = .bad_variant_access := by
  cases k <;> cases v <;> simp [DataType.get] at h <;> exact h.symm

theorem DataType.kind_of (k : Kind) (x : k.type) : (DataType.of k x).kind = k := by
  cases k <;> rfl

theorem DataType.index_eq_kind_index (v : DataType) : v.index = v.kind.index := by
  cases v <;> rfl

theorem Kind.indexOf_order (k : Kind) : Kind.order.indexOf k = k.index := by
  cases k <;> decide

theorem Kind.index_injective {k l : Kind} (h : k.index = l.index) : k = l := by
  cases k <;> cases l <;> first | rfl | cases h

/-! # The claims -/

/-- C1 (amended): for all Values `a` and `b`, `a == b` and `a < b` are
determined by the data payloads alone: replacing the tag and the callable slot
of either operand leaves both results unchanged.  In particular a List and a
Vector holding the same elements are never less than one another, they compare
as the List compares with itself, and they are equal whenever no NaN number
occurs among the elements. -/
theorem C1_compare_by_payload (a b : MalType) (i j : Type_) (f g : Functor)
    (xs : Container) :
    (MalType.eq (.mk i a.val f) (.mk j b.val g) = MalType.eq a b ∧
      MalType.lt (.mk i a.val f) (.mk j b.val g) = MalType.lt a b) ∧
    MalType.lt (Types.List xs) (Types.Vector xs) = false ∧
    MalType.lt (Types.Vector xs) (Types.List xs) = false ∧
    MalType.eq (Types.List xs) (Types.Vector xs) =
      MalType.eq (Types.List xs) (Types.List xs) ∧
    (seqNoNaN xs = true → MalType.eq (Types.List xs) (Types.Vector xs) = true) := by
  refine ⟨⟨?_, ?_⟩, ?_, ?_, ?_, ?_⟩
  · rw [MalType.eq_val a b]; simp
  · rw [MalType.lt_val a b]; simp
  · have := MalType.basicLaws_value.lt_irrefl (Types.List xs) trivial
    simpa [Types.List, Types.Vector, MalType.ofVal] using this
  · have := MalType.basicLaws_value.lt_irrefl (Types.List xs) trivial
    simpa [Types.List, Types.Vector, MalType.ofVal] using this
  · simp [Types.List, Types.Vector, MalType.ofVal]
  · intro h
    have hn : (Types.List xs).noNaN = true := by
      simpa [Types.List, MalType.ofVal, MalType.noNaN, DataType.noNaN] using h
    have h1 := MalType.weakOrder_value.tricho (Types.List xs) (Types.List xs) hn hn
    rw [MalType.weakOrder_value.irrefl _ hn] at h1
    simpa [Types.List, Types.Vector, MalType.ofVal] using h1

/-- C1, an instance: the List and the Vector holding the number 1 are equal. -/
theorem C1_compare_by_payload_witness :
    MalType.eq (Types.List [Types.Int 1]) (Types.Vector [Types.Int 1]) = true :=
  (C1_compare_by_payload (Types.Int 1) (Types.Int 1) .INT .INT Functor.default
    Functor.default [Types.Int 1]).2.2.2.2 (by decide)

/-- C1 as stated fails: the List and the Vector holding the one element NaN
hold identical elements and are not equal. -/
theorem C1_list_vector_nan_not_equal :
    MalType.eq (Types.List [Types.Float double.nan])
      (Types.Vector [Types.Float double.nan]) = false := by
  decide

/-- C2: two Atom Values are equal exactly when they refer to the same cell;
the names play no part, and two atoms on distinct cells are unequal whatever
the heap holds in the cells, equal contents included. -/
theorem C2_atom_eq_iff_same_cell (h : Heap) (a b : Atom_t) (i j : Type_)
    (f g : Functor) :
    (MalType.eq (.mk i (.atom a) f) (.mk j (.atom b) g) = true ↔ a.ref = b.ref) ∧
    (a.ref ≠ b.ref → a.deref h = b.deref h →
      MalType.eq (.mk i (.atom a) f) (.mk j (.atom b) g) = false) := by
  constructor
  · simp [MalType.eq, DataType.eq, Atom_t.eq]
  · intro hne _
    simp [MalType.eq, DataType.eq, Atom_t.eq, hne]

/-- C2, an instance: the atoms on cells 1 and 2, both cells holding the number
7, are unequal. -/
theorem C2_atom_eq_iff_same_cell_witness :
    MalType.eq (.mk .ATOM (.atom ⟨1, none⟩) Functor.default)
      (.mk .ATOM (.atom ⟨2, none⟩) Functor.default) = false :=
  (C2_atom_eq_iff_same_cell (fun _ => some (Types.Int 7)) ⟨1, none⟩ ⟨2, none⟩ .ATOM .ATOM
    Functor.default Functor.default).2 (by decide) rfl

/-- C3 (amended): `MalType::operator==` is symmetric and transitive on all
Values, Atoms included, and `a == a` holds for every Value that contains no
NaN number. -/
theorem C3_eq_equivalence (a b c : MalType) :
    (a.noNaN = true → MalType.eq a a = true) ∧
    (MalType.eq a b = true → MalType.eq b a = true) ∧
    (MalType.eq a b = true → MalType.eq b c = true → MalType.eq a c = true) := by
  refine ⟨?_, ?_, ?_⟩
  · intro h
    have h1 := MalType.weakOrder_value.tricho a a h h
    rw [MalType.weakOrder_value.irrefl a h] at h1
    simpa using h1
  · intro h
    rw [← MalType.basicLaws_value.eq_symm a b trivial trivial]
    exact h
  · exact MalType.basicLaws_value.eq_trans a b c trivial trivial trivial

/-- C3, an instance: a List holding a number and a String equals itself. -/
theorem C3_eq_equivalence_witness :
    MalType.eq (Types.List [Types.Int 1, Types.String [120]])
      (Types.List [Types.Int 1, Types.String [120]]) = true :=
  (C3_eq_equivalence (Types.List [Types.Int 1, Types.String [120]])
    (Types.List [Types.Int 1, Types.String [120]])
    (Types.List [Types.Int 1, Types.String [120]])).1 (by decide)

/-- C3 as stated fails: the number NaN is a non-Atom Value that is not equal
to itself. -/
theorem C3_nan_not_reflexive :
    MalType.eq (Types.Float double.nan) (Types.Float double.nan) = false := by
  decide

/-- C4 (amended): `MalType::operator<` is irreflexive and asymmetric on all
Values; on the Values that contain no NaN number it is transitive and exactly
one of `a < b`, `a == b`, `b < a` holds, so that it is a strict total order
consistent with `operator==` there. -/
theorem C4_lt_strict_total_order (a b c : MalType) :
    MalType.lt a a = false ∧
    (MalType.lt a b = true → MalType.lt b a = false) ∧
    (a.noNaN = true → b.noNaN = true → c.noNaN = true →
      MalType.lt a b = true → MalType.lt b c = true → MalType.lt a c = true) ∧
    (a.noNaN = true → b.noNaN = true →
      (MalType.lt a b = true ∧ MalType.eq a b = false ∧ MalType.lt b a = false) ∨
      (MalType.lt a b = false ∧ MalType.eq a b = true ∧ MalType.lt b a = false) ∨
      (MalType.lt a b = false ∧ MalType.eq a b = false ∧ MalType.lt b a = true)) := by
  refine ⟨MalType.basicLaws_value.lt_irrefl a trivial,
    MalType.basicLaws_value.lt_asymm a b trivial trivial,
    MalType.weakOrder_value.trans a b c, ?_⟩
  intro ha hb
  have h1 := MalType.weakOrder_value.tricho a b ha hb
  cases hab : MalType.lt a b with
  | true =>
    have h2 := MalType.basicLaws_value.lt_asymm a b trivial trivial hab
    simp [hab, h2] at h1
    simp [h1, h2]
  | false =>
    cases hba : MalType.lt b a with
    | true => simp [hab, hba] at h1; simp [h1]
    | false => simp [hab, hba] at h1; simp [h1]

/-- C4, an instance: `1 < 2 < 3` gives `1 < 3`. -/
theorem C4_lt_strict_total_order_witness :
    MalType.lt (Types.Int 1) (Types.Int 3) = true :=
  (C4_lt_strict_total_order (Types.Int 1) (Types.Int 2) (Types.Int 3)).2.2.1
    (by decide) (by decide) (by decide)
    (by simp [Types.Int, MalType.ofVal]; decide)
    (by simp [Types.Int, MalType.ofVal]; decide)

/-- C4 as stated fails.  For the number NaN none of `a < a`, `a == a` holds,
so no one of the three relations holds between NaN and itself; and with
`a = (2 0)`, `b = (NaN 1)`, `c = (1 2)` one has `a < b` and `b < c` but not
`a < c`. -/
theorem C4_nan_breaks_total_order :
    (MalType.lt (Types.Float double.nan) (Types.Float double.nan) = false ∧
      MalType.eq (Types.Float double.nan) (Types.Float double.nan) = false) ∧
    (MalType.lt (Types.List [Types.Int 2, Types.Int 0])
        (Types.List [Types.Float double.nan, Types.Int 1]) = true ∧
      MalType.lt (Types.List [Types.Float double.nan, Types.Int 1])
        (Types.List [Types.Int 1, Types.Int 2]) = true ∧
      MalType.lt (Types.List [Types.Int 2, Types.Int 0])
        (Types.List [Types.Int 1, Types.Int 2]) = false) := by
  refine ⟨⟨?_, by decide⟩, ?_, ?_, ?_⟩
  · simp [Types.Float, MalType.ofVal, double.lt]
  · simp [Types.List, Types.Int, Types.Float, MalType.ofVal, lexLt, double.lt]; decide
  · simp [Types.List, Types.Int, Types.Float, MalType.ofVal, lexLt, double.lt]; decide
  · simp [Types.List, Types.Int, Types.Float, MalType.ofVal, lexLt]; decide

/-- C5 (amended): within one payload kind `operator<` follows the payload.
For two number Values `a < b` is the built-in `x < y` of the stored doubles, the
comparison of their numeric values when both are finite.  For two text Values
`a < b` iff the stored text of `a` is lexicographically (byte-wise) smaller.
For two sequence Values `a < b` iff at the first position where one element is
less than the other it is the element of `a` that is less, or no position of
`a` decides and `b` is longer; when neither sequence contains a NaN number the
latter says that `a` is a proper prefix of `b`, elements compared with `==`. -/
theorem C5_lt_within_kind (i j : Type_) (f g : Functor) (x y : double)
    (s t : string) (xs ys : Container) (sx sy : Bool) (m n : Nat) (e k : Int) :
    MalType.lt (.mk i (.num x) f) (.mk j (.num y) g) = double.lt x y ∧
    (double.lt (.fin sx m e) (.fin sy n k) = true ↔ double.rat sx m e < double.rat sy n k) ∧
    (MalType.lt (.mk i (.str s) f) (.mk j (.str t) g) = true ↔ TextLess s t) ∧
    (MalType.lt (.mk i (.seq xs) f) (.mk j (.seq ys) g) = true ↔
      FirstLess MalType.lt xs ys ∨ UndecidedPrefix MalType.lt xs ys) ∧
    (seqNoNaN xs = true → seqNoNaN ys = true →
      (UndecidedPrefix MalType.lt xs ys ↔ ProperPrefix MalType.eq xs ys)) := by
  refine ⟨by simp, by simp [double.lt_fin], ?_, ?_, ?_⟩
  · simp only [MalType.lt_mk, DataType.lt_str]
    exact string.lt_iff_textLess s t
  · simp only [MalType.lt_mk, DataType.lt_seq]
    exact lexLt_iff MalType.lt xs ys
  · intro hx hy
    have hx2 := seqNoNaN_mem hx
    have hy2 := seqNoNaN_mem hy
    constructor
    · rintro ⟨q, c, r, h2, hF⟩
      refine ⟨q, c, r, h2, ?_⟩
      exact (forall₂_undecided_iff_eq hx2
        (fun a ha => hy2 a (by rw [h2]; exact List.mem_append_left _ ha))).1 hF
    · rintro ⟨q, c, r, h2, hF⟩
      refine ⟨q, c, r, h2, ?_⟩
      exact (forall₂_undecided_iff_eq hx2
        (fun a ha => hy2 a (by rw [h2]; exact List.mem_append_left _ ha))).2 hF

/-- C5, an instance: the sequence `(1)` is a proper prefix of `(1 2)`. -/
theorem C5_lt_within_kind_witness :
    UndecidedPrefix MalType.lt [Types.Int 1] [Types.Int 1, Types.Int 2] ↔
      ProperPrefix MalType.eq [Types.Int 1] [Types.Int 1, Types.Int 2] :=
  (C5_lt_within_kind .LIST .LIST Functor.default Functor.default double.zero double.zero
    [] [] [Types.Int 1] [Types.Int 1, Types.Int 2] false false 0 0 0 0).2.2.2.2
    (by decide) (by decide)

/-- C5 as stated fails: the sequence `(NaN)` is less than `(1 2)` although no
position has an element less than the other and `(NaN)` is not a prefix of
`(1 2)`. -/
theorem C5_nan_sequence_less_without_prefix :
    MalType.lt (Types.List [Types.Float double.nan])
        (Types.List [Types.Int 1, Types.Int 2]) = true ∧
    ¬ FirstLess MalType.lt [Types.Float double.nan] [Types.Int 1, Types.Int 2] ∧
    ¬ ProperPrefix MalType.eq [Types.Float double.nan] [Types.Int 1, Types.Int 2] := by
  refine ⟨?_, ?_, ?_⟩
  · simp [Types.List, Types.Int, Types.Float, MalType.ofVal, lexLt, double.lt]
  · rintro ⟨p, q, a, xs2, b, ys2, h1, h2, hF, hlt⟩
    cases hF with
    | nil =>
      simp only [List.nil_append, List.cons.injEq] at h1 h2
      rw [← h1.1, ← h2.1] at hlt
      simp [Types.Int, Types.Float, MalType.ofVal, double.lt] at hlt
    | cons hu hF2 =>
      simp only [List.cons_append, List.cons.injEq] at h1
      have := h1.2
      simp at this
  · rintro ⟨q, c, r, h2, hF⟩
    cases hF with
    | cons hu hF2 =>
      simp only [List.cons_append, List.cons.injEq] at h2
      rw [← h2.1] at hu
      revert hu
      decide

/-- C6: for every double `d`, `get_number_type(d)` returns `Type::INT` if and
only if `d` has no fractional component and round-trips exactly through
truncation to an integer, that is if and only if `d` is finite and its value is
an integer in the range of `long`; otherwise it returns `Type::FLOAT`.  So
`3.0` classifies as INT and `1.5` as FLOAT. -/
theorem C6_get_number_type (d : double) :
    (Types.get_number_type d = .INT ↔ double.HasNoFraction d ∧ double.RoundTrips d) ∧
    (Types.get_number_type d = .INT ↔
      ∃ s m e, ∃ n : Int, d = .fin s m e ∧ double.rat s m e = (n : ℚ) ∧
        -(2 : Int) ^ 63 ≤ n ∧ n < (2 : Int) ^ 63) ∧
    (Types.get_number_type d = .INT ∨ Types.get_number_type d = .FLOAT) ∧
    Types.get_number_type (.fin false 3 0) = .INT ∧
    Types.get_number_type (.fin false 3 (-1)) = .FLOAT := by
  refine ⟨?_, ?_, ?_, by decide, by decide⟩
  · rw [Types.get_number_type_int_iff]
    constructor
    · intro h
      refine ⟨?_, h⟩
      obtain ⟨s, m, e, n, h1, h2, _⟩ := (double.roundTrips_iff d).1 h
      exact ⟨s, m, e, n, h1, h2⟩
    · exact fun h => h.2
  · rw [Types.get_number_type_int_iff, double.roundTrips_iff]
  · unfold Types.get_number_type
    cases double.trunc_long d with
    | none => simp
    | some t =>
      by_cases h2 : double.eq (double.ofInt t) d = true
      · simp [h2]
      · simp [h2]

/-- C7: for every binary function `op` on doubles and every pair of Values
whose payloads are the numbers `x` and `y`, whatever their tags,
`apply_num_op(op, lhs, rhs)` returns the Value `MalType(get_number_type(n), n)`
with `n = op(x, y)`.  With division, the operands `Int(6)` and `Int(2)` give a
Value tagged INT equal to the number 3, and `Int(6)` and `Int(4)` give a Value
tagged FLOAT equal to the number 1.5. -/
theorem C7_apply_num_op (op : double → double → double) (lhs rhs : MalType)
    (x y : double) :
    (lhs.val = .num x → rhs.val = .num y →
      Types.apply_num_op op lhs rhs =
        .ok (MalType.ofVal (Types.get_number_type (op x y)) (.num (op x y)))) ∧
    (∃ r, Types.apply_num_op double.div (Types.Int 6) (Types.Int 2) = .ok r ∧
      r.id = .INT ∧ MalType.eq r (Types.Int 3) = true) ∧
    (∃ r, Types.apply_num_op double.div (Types.Int 6) (Types.Int 4) = .ok r ∧
      r.id = .FLOAT ∧ MalType.eq r (Types.Float (.fin false 3 (-1))) = true) := by
  refine ⟨?_, ⟨_, rfl, rfl, by decide⟩, ⟨_, rfl, rfl, by decide⟩⟩
  intro h1 h2
  simp [Types.apply_num_op, h1, h2, DataType.get_double, bind, Except.bind, pure,
    Except.pure]

/-- C7, an instance: dividing `Float(6)` by `Int(2)`. -/
theorem C7_apply_num_op_witness :
    Types.apply_num_op double.div (Types.Float (.fin false 6 0)) (Types.Int 2) =
      .ok (MalType.ofVal
        (Types.get_number_type (double.div (.fin false 6 0) (double.ofInt 2)))
        (.num (double.div (.fin false 6 0) (double.ofInt 2)))) :=
  (C7_apply_num_op double.div (Types.Float (.fin false 6 0)) (Types.Int 2)
    (.fin false 6 0) (double.ofInt 2)).1 rfl rfl

/-- C8 (amended): `apply_num_op(op, lhs, rhs)` and
`apply_num_bool_op(op, lhs, rhs)` succeed if the data payloads of both operands
are numbers, whatever the tags, and fail otherwise, with the
`std::bad_variant_access` of `std::get`.  The Values built by `Int` and `Float`
carry a number; those built by `Bool`, `String`, `Symbol`, `List` and `Vector`
do not. -/
theorem C8_apply_num_fails_iff_payload (op : double → double → double)
    (bop : double → double → bool) (lhs rhs : MalType) :
    (lhs.val.holds_double = true ∧ rhs.val.holds_double = true →
      (∃ r, Types.apply_num_op op lhs rhs = .ok r) ∧
      (∃ r, Types.apply_num_bool_op bop lhs rhs = .ok r)) ∧
    (¬ (lhs.val.holds_double = true ∧ rhs.val.holds_double = true) →
      Types.apply_num_op op lhs rhs = .error .bad_variant_access ∧
      Types.apply_num_bool_op bop lhs rhs = .error .bad_variant_access) ∧
    (∀ (n : long) (d : double), (Types.Int n).val.holds_double = true ∧
      (Types.Float d).val.holds_double = true) ∧
    (∀ (b : bool) (s : string) (xs : Container),
      (Types.Bool b).val.holds_double = false ∧ (Types.String s).val.holds_double = false ∧
      (Types.Symbol s).val.holds_double = false ∧ (Types.List xs).val.holds_double = false ∧
      (Types.Vector xs).val.holds_double = false) := by
  refine ⟨?_, ?_, fun _ _ => ⟨rfl, rfl⟩, fun _ _ _ => ⟨rfl, rfl, rfl, rfl, rfl⟩⟩
  · obtain ⟨i, v, f⟩ := lhs
    obtain ⟨j, w, g⟩ := rhs
    cases v <;> cases w <;>
      simp [Types.apply_num_op, Types.apply_num_bool_op, DataType.get_double,
        DataType.holds_double, DataType.index, MalType.val, bind, Except.bind, pure,
        Except.pure]
  · obtain ⟨i, v, f⟩ := lhs
    obtain ⟨j, w, g⟩ := rhs
    cases v <;> cases w <;>
      simp [Types.apply_num_op, Types.apply_num_bool_op, DataType.get_double,
        DataType.holds_double, DataType.index, MalType.val, bind, Except.bind, pure,
        Except.pure]

/-- C8, an instance: dividing the Bool `true` by a number fails. -/
theorem C8_apply_num_fails_iff_payload_witness :
    Types.apply_num_op double.div (Types.Bool true) (Types.Int 1) =
      .error .bad_variant_access :=
  ((C8_apply_num_fails_iff_payload double.div double.lt (Types.Bool true)
    (Types.Int 1)).2.1 (by decide)).1

/-- C8 as stated fails: a Value tagged BUILTIN, built by `MalType(id, func)`,
is not numeric by its tag, and both helpers succeed on it. -/
theorem C8_callable_operand_succeeds :
    Types.apply_num_op double.div (MalType.ofFunc .BUILTIN (.builtin (some 0)))
        (Types.Int 1) = .ok (MalType.ofVal .INT (.num (.fin false 0 0))) ∧
    Types.apply_num_bool_op double.lt (MalType.ofFunc .BUILTIN (.builtin (some 0)))
        (Types.Int 1) = .ok (Types.Bool true) :=
  ⟨rfl, rfl⟩

/-- C9: for every predicate `op` on doubles and every pair of Values whose
payloads are the numbers `x` and `y`, `apply_num_bool_op(op, lhs, rhs)` returns
the Value `Bool(op(x, y))`, whose tag is BOOL and whose payload is the boolean
`op(x, y)`. -/
theorem C9_apply_num_bool_op (op : double → double → bool) (lhs rhs : MalType)
    (x y : double) (hl : lhs.val = .num x) (hr : rhs.val = .num y) :
    Types.apply_num_bool_op op lhs rhs = .ok (Types.Bool (op x y)) ∧
    (Types.Bool (op x y)).id = .BOOL ∧
    (Types.Bool (op x y)).val = .bool (op x y) := by
  refine ⟨?_, rfl, rfl⟩
  simp [Types.apply_num_bool_op, hl, hr, DataType.get_double, bind, Except.bind, pure,
    Except.pure]

/-- C9, an instance: comparing `Int(1)` with `Float(1.5)` by `<`. -/
theorem C9_apply_num_bool_op_witness :
    Types.apply_num_bool_op double.lt (Types.Int 1) (Types.Float (.fin false 3 (-1))) =
      .ok (Types.Bool (double.lt (double.ofInt 1) (.fin false 3 (-1)))) ∧
    (Types.Bool (double.lt (double.ofInt 1) (.fin false 3 (-1)))).id = .BOOL ∧
    (Types.Bool (double.lt (double.ofInt 1) (.fin false 3 (-1)))).val =
      .bool (double.lt (double.ofInt 1) (.fin false 3 (-1))) :=
  C9_apply_num_bool_op double.lt (Types.Int 1) (Types.Float (.fin false 3 (-1)))
    (double.ofInt 1) (.fin false 3 (-1)) rfl rfl

/-- C10 (amended): the entries of a map are held in ascending key order under
`MalType::operator<`, whatever the insertion order.  In the map that any
sequence of insertions builds, each key is less than the next one; when the
inserted keys contain no NaN number, each key is less than every later one.
The map built from `Symbol("a") -> Int(1)` and `Symbol("b") -> Int(2)`,
inserted in either order, enumerates as `a 1 b 2`. -/
theorem C10_map_keys_ascending (entries : List (MalType × MalType)) :
    List.Chain' (fun x y => MalType.lt x y = true)
      (Map_t.keys (std_map.ofList entries).entries) ∧
    ((∀ p ∈ entries, p.1.noNaN = true) →
      List.Pairwise (fun x y => MalType.lt x y = true)
        (Map_t.keys (std_map.ofList entries).entries)) ∧
    Map_t.flat (std_map.ofList
        [(Types.Symbol [97], Types.Int 1), (Types.Symbol [98], Types.Int 2)]).entries =
      [Types.Symbol [97], Types.Int 1, Types.Symbol [98], Types.Int 2] ∧
    Map_t.flat (std_map.ofList
        [(Types.Symbol [98], Types.Int 2), (Types.Symbol [97], Types.Int 1)]).entries =
      [Types.Symbol [97], Types.Int 1, Types.Symbol [98], Types.Int 2] := by
  refine ⟨std_map.ofList_chain' entries, std_map.ofList_pairwise entries, ?_, ?_⟩
  · simp [std_map.ofList, std_map.insert, std_map.entries, Rb_tree.insert_unique,
      Rb_tree.descend, Rb_tree.rebalance, Rb_path.plug, Rb_tree.set_color,
      Rb_tree.toList, Map_t.flat, Types.Symbol, MalType.ofVal, string.lt, lexLt]
  · simp [std_map.ofList, std_map.insert, std_map.entries, Rb_tree.insert_unique,
      Rb_tree.descend, Rb_tree.rebalance, Rb_path.plug, Rb_tree.set_color,
      Rb_tree.toList, Map_t.flat, Types.Symbol, MalType.ofVal, string.lt, lexLt]

/-- C10, an instance: the keys of the map built from `b -> 2` then `a -> 1`. -/
theorem C10_map_keys_ascending_witness :
    List.Pairwise (fun x y => MalType.lt x y = true)
      (Map_t.keys (std_map.ofList
        [(Types.Symbol [98], Types.Int 2), (Types.Symbol [97], Types.Int 1)]).entries) :=
  (C10_map_keys_ascending
    [(Types.Symbol [98], Types.Int 2), (Types.Symbol [97], Types.Int 1)]).2.1
    (by decide)

/-- C10 as stated fails.  With the keys `(1 2)`, `(2 0)`, `(NaN 1)` inserted in
this order the map enumerates `(NaN 1)`, `(1 2)`, `(2 0)`: its first key is not
less than its last key, which is less than the first.  The order depends on
the insertion order: inserted as `(2 0)`, `(NaN 1)`, `(1 2)` the same keys are
enumerated as `(1 2)`, `(2 0)`, `(NaN 1)`. -/
theorem C10_nan_keys_not_ascending :
    Map_t.keys (std_map.ofList
        [(Types.List [Types.Int 1, Types.Int 2], Types.Int 0),
         (Types.List [Types.Int 2, Types.Int 0], Types.Int 1),
         (Types.List [Types.Float double.nan, Types.Int 1], Types.Int 2)]).entries =
      [Types.List [Types.Float double.nan, Types.Int 1],
       Types.List [Types.Int 1, Types.Int 2],
       Types.List [Types.Int 2, Types.Int 0]] ∧
    MalType.lt (Types.List [Types.Float double.nan, Types.Int 1])
      (Types.List [Types.Int 2, Types.Int 0]) = false ∧
    MalType.lt (Types.List [Types.Int 2, Types.Int 0])
      (Types.List [Types.Float double.nan, Types.Int 1]) = true ∧
    Map_t.keys (std_map.ofList
        [(Types.List [Types.Int 2, Types.Int 0], Types.Int 1),
         (Types.List [Types.Float double.nan, Types.Int 1], Types.Int 2),
         (Types.List [Types.Int 1, Types.Int 2], Types.Int 0)]).entries =
      [Types.List [Types.Int 1, Types.Int 2],
       Types.List [Types.Int 2, Types.Int 0],
       Types.List [Types.Float double.nan, Types.Int 1]] := by
  refine ⟨?_, ?_, ?_, ?_⟩
  · simp [std_map.ofList, std_map.insert, std_map.entries, Rb_tree.insert_unique,
      Rb_tree.descend, Rb_tree.rebalance, Rb_path.plug, Rb_tree.set_color,
      Rb_tree.toList, Map_t.keys, MalType.lt_List_pair, MalType.lt_Int,
      MalType.lt_nan_Int]
  · simp [MalType.lt_List_pair, MalType.lt_Int, MalType.lt_nan_Int]
  · simp [MalType.lt_List_pair, MalType.lt_Int, MalType.lt_nan_Int]
  · simp [std_map.ofList, std_map.insert, std_map.entries, Rb_tree.insert_unique,
      Rb_tree.descend, Rb_tree.rebalance, Rb_path.plug, Rb_tree.set_color,
      Rb_tree.toList, Map_t.keys, MalType.lt_List_pair, MalType.lt_Int,
      MalType.lt_nan_Int]

/-- C11: ordering between Atom Values is by cell identity and is stable.  For
any two Atom Values exactly one of `a < b`, `a == b`, `b < a` holds; `a < b` and
`a == b` are the comparisons of the two cell addresses, so that Atom Values on
the same cells, whatever their names, tags and callable slots, compare the same
way; and assigning a new Value to a cell changes what the cell holds and none
of the atoms, hence none of the outcomes. -/
theorem C11_atom_order_by_cell (h : Heap) (v : MalType) (a b a2 b2 : Atom_t)
    (i j i2 j2 : Type_) (f g f2 g2 : Functor)
    (ha : a2.ref = a.ref) (hb : b2.ref = b.ref) :
    ((MalType.lt (.mk i (.atom a) f) (.mk j (.atom b) g) = true ∧
        MalType.eq (.mk i (.atom a) f) (.mk j (.atom b) g) = false ∧
        MalType.lt (.mk j (.atom b) g) (.mk i (.atom a) f) = false) ∨
      (MalType.lt (.mk i (.atom a) f) (.mk j (.atom b) g) = false ∧
        MalType.eq (.mk i (.atom a) f) (.mk j (.atom b) g) = true ∧
        MalType.lt (.mk j (.atom b) g) (.mk i (.atom a) f) = false) ∨
      (MalType.lt (.mk i (.atom a) f) (.mk j (.atom b) g) = false ∧
        MalType.eq (.mk i (.atom a) f) (.mk j (.atom b) g) = false ∧
        MalType.lt (.mk j (.atom b) g) (.mk i (.atom a) f) = true)) ∧
    MalType.lt (.mk i (.atom a) f) (.mk j (.atom b) g) = decide (a.ref < b.ref) ∧
    MalType.eq (.mk i (.atom a) f) (.mk j (.atom b) g) = decide (a.ref = b.ref) ∧
    MalType.lt (.mk i2 (.atom a2) f2) (.mk j2 (.atom b2) g2) =
      MalType.lt (.mk i (.atom a) f) (.mk j (.atom b) g) ∧
    MalType.eq (.mk i2 (.atom a2) f2) (.mk j2 (.atom b2) g2) =
      MalType.eq (.mk i (.atom a) f) (.mk j (.atom b) g) ∧
    a.deref (Heap.store h a.ref v) = some v ∧
    a2.deref (Heap.store h a.ref v) = some v := by
  have e1 : MalType.lt (.mk i (.atom a) f) (.mk j (.atom b) g) = decide (a.ref < b.ref) := by
    simp [Atom_t.lt]
  have e2 : MalType.lt (.mk j (.atom b) g) (.mk i (.atom a) f) = decide (b.ref < a.ref) := by
    simp [Atom_t.lt]
  have e3 : MalType.eq (.mk i (.atom a) f) (.mk j (.atom b) g) = decide (a.ref = b.ref) := by
    simp [DataType.eq, Atom_t.eq]
  refine ⟨?_, e1, e3, ?_, ?_, ?_, ?_⟩
  · rw [e1, e2, e3]
    rcases Nat.lt_trichotomy a.ref b.ref with h1 | h1 | h1
    · refine Or.inl ⟨by simpa using h1, by simp; omega, by simp; omega⟩
    · refine Or.inr (Or.inl ⟨by simp; omega, by simpa using h1, by simp; omega⟩)
    · refine Or.inr (Or.inr ⟨by simp; omega, by simp; omega, by simpa using h1⟩)
  · rw [e1]; simp [Atom_t.lt, ha, hb]
  · rw [e3]; simp [DataType.eq, Atom_t.eq, ha, hb]
  · simp [Atom_t.deref, Heap.store]
  · simp [Atom_t.deref, Heap.store, ha]

/-- C11, an instance: the atoms on cells 1 and 2 under other names, after the
cell 1 is assigned the number 5. -/
theorem C11_atom_order_by_cell_witness :
    MalType.lt (.mk .ATOM (.atom ⟨1, some [120]⟩) Functor.default)
        (.mk .ATOM (.atom ⟨2, some [121]⟩) Functor.default) =
      MalType.lt (.mk .ATOM (.atom ⟨1, none⟩) Functor.default)
        (.mk .ATOM (.atom ⟨2, none⟩) Functor.default) :=
  (C11_atom_order_by_cell (fun _ => none) (Types.Int 5) ⟨1, none⟩ ⟨2, none⟩
    ⟨1, some [120]⟩ ⟨2, some [121]⟩ .ATOM .ATOM .ATOM .ATOM Functor.default
    Functor.default Functor.default Functor.default rfl rfl).2.2.2.1

/-- C12 (amended): the default-constructed Value `MalType()` has tag NIL and
its data payload is the value-initialised `DataType`, the number `+0.0`, not
the unit alternative.  So it is unequal to `MalType(Type::NIL, Null{})` and
equal to the number 0, while `MalType(Type::NIL, Null{})`, whose payload is the
unit alternative, is unequal to every number. -/
theorem C12_default_value_payload (d : double) (i : Type_) (f : Functor) :
    MalType.new.id = .NIL ∧
    MalType.new.val = .num double.zero ∧
    MalType.eq MalType.new (MalType.ofVal .NIL .null) = false ∧
    MalType.eq MalType.new (Types.Int 0) = true ∧
    (MalType.ofVal .NIL .null).val = .null ∧
    MalType.eq (MalType.ofVal .NIL .null) (.mk i (.num d) f) = false := by
  refine ⟨rfl, rfl, by decide, by decide, rfl, ?_⟩
  simp [MalType.ofVal, DataType.eq]

/-- C12 as stated fails: the payload of `MalType()` is not the unit
alternative, `MalType()` differs from `MalType(Type::NIL, Null{})`, and it
equals the number 0. -/
theorem C12_default_payload_is_number :
    MalType.new.val ≠ .null ∧
    MalType.eq MalType.new (MalType.ofVal .NIL .null) = false ∧
    MalType.eq MalType.new (Types.Int 0) = true := by
  refine ⟨?_, by decide, by decide⟩
  intro h
  cases h

/-- C13 (amended): every Value built by `MalType()`, `MalType(id)` or
`MalType(id, val)` has a value-initialised callable slot: the first alternative
of `Functor`, a `Builtin_t` that is an empty `std::function` (no target, so
neither a native function nor a closure), which is not the `Null` alternative.
Every Value built by `MalType(id, func)` holds exactly the callable it was
given. -/
theorem C13_callable_slot (id : Type_) (val : DataType) (func : Functor) :
    MalType.new.func = .builtin none ∧
    (MalType.ofId id).func = .builtin none ∧
    (MalType.ofVal id val).func = .builtin none ∧
    Functor.builtin none ≠ Functor.null ∧
    (MalType.ofFunc id func).func = func := by
  refine ⟨rfl, rfl, rfl, ?_, rfl⟩
  intro h
  cases h

/-- C13 as stated fails: the callable slot of `MalType()`, of `MalType(id)` and
of `MalType(id, val)` does not hold the `Null` alternative. -/
theorem C13_default_slot_not_null :
    MalType.new.func ≠ Functor.null ∧
    (MalType.ofId .INT).func ≠ Functor.null ∧
    (MalType.ofVal .INT (.num double.zero)).func ≠ Functor.null := by
  refine ⟨?_, ?_, ?_⟩ <;> intro h <;> cases h

/-- C14: an Atom Value shares its cell with every copy of itself.  A copy
refers to the same cell and compares equal to the original; a Value assigned to
the cell through the original is read through the copy, and the other way
round; atoms on other cells read what they read before.  For the atom created
holding `Int(1)`: it reads `Int(1)`, and after `Int(2)` is assigned to its cell
a copy of it reads `Int(2)`. -/
theorem C14_atom_copy_shares_cell (h : Heap) (a c : Atom_t) (i : Type_) (f : Functor)
    (v : MalType) (p : Nat) (var : Option string) :
    a.copy.ref = a.ref ∧
    MalType.eq (MalType.copy (.mk i (.atom a) f)) (.mk i (.atom a) f) = true ∧
    a.copy.deref (Heap.store h a.ref v) = some v ∧
    a.deref (Heap.store h a.copy.ref v) = some v ∧
    (c.ref ≠ a.ref → c.deref (Heap.store h a.ref v) = c.deref h) ∧
    (Types.Atom p (Types.Int 1) var h).1 = MalType.ofVal .ATOM (.atom ⟨p, var⟩) ∧
    Atom_t.deref (Types.Atom p (Types.Int 1) var h).2 ⟨p, var⟩ = some (Types.Int 1) ∧
    Atom_t.deref (Heap.store (Types.Atom p (Types.Int 1) var h).2 p (Types.Int 2))
      (Atom_t.copy ⟨p, var⟩) = some (Types.Int 2) := by
  refine ⟨rfl, ?_, ?_, ?_, ?_, rfl, ?_, ?_⟩
  · simp [MalType.copy, Atom_t.copy, DataType.eq, Atom_t.eq]
  · simp [Atom_t.deref, Atom_t.copy, Heap.store]
  · simp [Atom_t.deref, Atom_t.copy, Heap.store]
  · intro hc
    simp [Atom_t.deref, Heap.store, hc]
  · simp [Atom_t.deref, Types.Atom, Heap.store]
  · simp [Atom_t.deref, Atom_t.copy, Heap.store]

/-- C14, an instance: in the heap where cell 1 holds the number 1 and cell 2
the number 7, assigning the number 2 to cell 1 leaves the atom on cell 2
reading what it read. -/
theorem C14_atom_copy_shares_cell_witness :
    Atom_t.deref (Heap.store (fun q => if q = 1 then some (Types.Int 1) else some (Types.Int 7))
        1 (Types.Int 2)) ⟨2, none⟩ =
      Atom_t.deref (fun q => if q = 1 then some (Types.Int 1) else some (Types.Int 7))
        ⟨2, none⟩ :=
  (C14_atom_copy_shares_cell
    (fun q => if q = 1 then some (Types.Int 1) else some (Types.Int 7))
    ⟨1, none⟩ ⟨2, none⟩ .ATOM Functor.default (Types.Int 2) 1 none).2.2.2.2.1 (by decide)

/-- C15: for every callable `f` and Values `lhs`, `rhs`: if the payload of `lhs`
holds the alternative `L` and that of `rhs` the alternative `R`,
`apply_binary<L, R, Ret>(f, lhs, rhs)` returns exactly `f` applied to the two
payloads, with the effects of that one call, whatever the two tags and
callable slots; if either payload holds another alternative the call fails
with `std::bad_variant_access` and the state is the one before the call, so
`f` has not been invoked. -/
theorem C15_apply_binary (L R : Kind) (Ret σ : Type)
    (func : L.type → R.type → σ → Ret × σ) (lhs rhs : MalType) (s : σ) :
    (∀ x y, lhs.val = DataType.of L x → rhs.val = DataType.of R y →
      Types.apply_binary L R func lhs rhs s = (.ok (func x y s).1, (func x y s).2)) ∧
    (∀ (i j : Type_) (f g : Functor),
      Types.apply_binary L R func (.mk i lhs.val f) (.mk j rhs.val g) s =
        Types.apply_binary L R func lhs rhs s) ∧
    (lhs.val.kind ≠ L ∨ rhs.val.kind ≠ R →
      Types.apply_binary L R func lhs rhs s = (.error .bad_variant_access, s)) := by
  refine ⟨?_, ?_, ?_⟩
  · intro x y hx hy
    simp only [Types.apply_binary, hx, hy, DataType.get_of]
  · intro i j f g
    simp only [Types.apply_binary, MalType.val]
  · intro hk
    unfold Types.apply_binary
    rcases hk with hk | hk
    · rw [DataType.get_of_kind_ne L lhs.val hk]
      cases DataType.get R rhs.val <;> rfl
    · rw [DataType.get_of_kind_ne R rhs.val hk]
      cases hl : DataType.get L lhs.val with
      | ok x => rfl
      | error e => rw [DataType.get_error L lhs.val e hl]

/-- C15, an instance: a callable that counts its calls, applied with
`L = R = double` to the Bool `true` and the number 1, fails and the count is
still 0. -/
theorem C15_apply_binary_witness :
    Types.apply_binary .number .number
        (fun (x y : double) (n : Nat) => (double.lt x y, n + 1))
        (Types.Bool true) (Types.Int 1) 0 =
      (.error .bad_variant_access, 0) :=
  (C15_apply_binary .number .number Bool Nat
    (fun (x y : double) (n : Nat) => (double.lt x y, n + 1))
    (Types.Bool true) (Types.Int 1) 0).2.2 (Or.inl (by decide))

/-- C16: Values whose payloads are of different kinds are never equal and are
ordered by payload kind alone, in the order number, boolean, sequence, map,
text, atom, nil: `a < b` iff the kind of `a` comes earlier in that list,
whatever the contents.  Every number is less than `false`, and every String is
less than the Value with the unit payload. -/
theorem C16_order_by_kind (a b : MalType) (hk : a.val.kind ≠ b.val.kind) :
    MalType.eq a b = false ∧
    (MalType.lt a b = true ↔
      Kind.order.indexOf a.val.kind < Kind.order.indexOf b.val.kind) ∧
    (∀ (d : double) (i : Type_) (f : Functor),
      MalType.lt (.mk i (.num d) f) (Types.Bool false) = true) ∧
    (∀ s : string, MalType.lt (Types.String s) (MalType.ofVal .NIL .null) = true) := by
  have hi : a.val.index ≠ b.val.index := by
    rw [DataType.index_eq_kind_index, DataType.index_eq_kind_index]
    exact fun h => hk (Kind.index_injective h)
  refine ⟨?_, ?_, ?_, ?_⟩
  · rw [MalType.eq_val]
    exact DataType.eq_of_index_ne hi
  · rw [Kind.indexOf_order, Kind.indexOf_order, ← DataType.index_eq_kind_index,
      ← DataType.index_eq_kind_index, MalType.lt_val]
    constructor
    · intro h
      exact Nat.lt_of_le_of_ne (DataType.index_le_of_lt h) hi
    · exact DataType.lt_of_index_lt
  · intro d i f
    rw [MalType.lt_val]
    exact DataType.lt_of_index_lt
      (by simp [MalType.val, Types.Bool, MalType.ofVal, DataType.index])
  · intro s
    rw [MalType.lt_val]
    exact DataType.lt_of_index_lt
      (by simp [MalType.val, Types.String, MalType.ofVal, DataType.index])

/-- C16, an instance: the number NaN is less than the empty List. -/
theorem C16_order_by_kind_witness :
    MalType.eq (Types.Float double.nan) (Types.List []) = false ∧
    (MalType.lt (Types.Float double.nan) (Types.List []) = true ↔
      Kind.order.indexOf (Types.Float double.nan).val.kind <
        Kind.order.indexOf (Types.List []).val.kind) ∧
    (∀ (d : double) (i : Type_) (f : Functor),
      MalType.lt (.mk i (.num d) f) (Types.Bool false) = true) ∧
    (∀ s : string, MalType.lt (Types.String s) (MalType.ofVal .NIL .null) = true) :=
  C16_order_by_kind (Types.Float double.nan) (Types.List []) (by decide)

/-- C17: callables are indistinguishable by comparison.  Every Value built by
`MalType(id, func)` carries the default data payload, the number 0; so any two
such Values, whatever functions they hold, are equal and neither is less than
the other, and each of them equals the number Value 0. -/
theorem C17_callables_compare_equal (i j : Type_) (F G : Functor) :
    (MalType.ofFunc i F).val = .num double.zero ∧
    MalType.eq (MalType.ofFunc i F) (MalType.ofFunc j G) = true ∧
    MalType.lt (MalType.ofFunc i F) (MalType.ofFunc j G) = false ∧
    MalType.lt (MalType.ofFunc j G) (MalType.ofFunc i F) = false ∧
    MalType.eq (MalType.ofFunc i F) (Types.Int 0) = true ∧
    MalType.eq (MalType.ofFunc i F) (Types.Float double.zero) = true := by
  have h := MalType.not_lt_of_same_val
    (show (MalType.ofFunc j G).val = (MalType.ofFunc i F).val from rfl)
  have e0 : DataType.eq (.num double.zero) (.num double.zero) = true := by decide
  refine ⟨rfl, ?_, h.1, h.2, ?_, ?_⟩
  · rw [MalType.eq_val]; exact e0
  · rw [MalType.eq_val]; exact e0
  · rw [MalType.eq_val]; exact e0

/-- C18 (amended): map keys are identified by payload only.  For every text
`s` the Symbol and the String storing `s` are equal and neither is less than
the other, so they are the same key.  In the map that any sequence of
insertions builds, inserting one of them when the map already contains the
other leaves the map as it is, and a lookup with either gives the same result
and finds the entry stored under the other.  When the inserted keys contain no
NaN number, no two keys of the map are `==` to each other. -/
theorem C18_map_keys_by_payload (s : string) (v : MalType)
    (entries : List (MalType × MalType)) :
    (MalType.eq (Types.Symbol s) (Types.String s) = true ∧
      MalType.lt (Types.Symbol s) (Types.String s) = false ∧
      MalType.lt (Types.String s) (Types.Symbol s) = false) ∧
    (Types.Symbol s ∈ Map_t.keys (std_map.ofList entries).entries →
      std_map.insert (Types.String s) v (std_map.ofList entries) =
        std_map.ofList entries) ∧
    (Types.String s ∈ Map_t.keys (std_map.ofList entries).entries →
      std_map.insert (Types.Symbol s) v (std_map.ofList entries) =
        std_map.ofList entries) ∧
    std_map.find (Types.Symbol s) (std_map.ofList entries) =
      std_map.find (Types.String s) (std_map.ofList entries) ∧
    (∀ w, (Types.Symbol s, w) ∈ (std_map.ofList entries).entries →
      std_map.find (Types.String s) (std_map.ofList entries) =
        some (Types.Symbol s, w)) ∧
    (∀ w, (Types.String s, w) ∈ (std_map.ofList entries).entries →
      std_map.find (Types.Symbol s) (std_map.ofList entries) =
        some (Types.String s, w)) ∧
    ((∀ p ∈ entries, p.1.noNaN = true) →
      List.Pairwise (fun a b => MalType.eq a b = false)
        (Map_t.keys (std_map.ofList entries).entries)) := by
  have hv : (Types.Symbol s).val = (Types.String s).val := rfl
  have hn := MalType.not_lt_of_same_val hv
  have h1 := std_map.ofList_upper (Types.String s)
    (by simp [Types.String, MalType.ofVal, MalType.val, DataType.index]) entries
  have h2 := std_map.ofList_upper (Types.Symbol s)
    (by simp [Types.Symbol, MalType.ofVal, MalType.val, DataType.index]) entries
  refine ⟨⟨?_, hn.2, hn.1⟩, ?_, ?_, ?_, ?_, ?_, ?_⟩
  · simp [Types.Symbol, Types.String, MalType.ofVal, DataType.eq, string.eq]
  · exact std_map.insert_same_payload (Types.String s) v _ h1 (Types.Symbol s) hv.symm
  · exact std_map.insert_same_payload (Types.Symbol s) v _ h2 (Types.String s) hv
  · exact std_map.find_same (Types.String s) (Types.Symbol s) hv _
  · intro w hw
    exact std_map.find_same_payload (Types.String s) _ h1 (Types.Symbol s) w hv.symm hw
  · intro w hw
    exact std_map.find_same_payload (Types.Symbol s) _ h2 (Types.String s) w hv hw
  · intro hk
    exact pairwise_lt_ne _ (std_map.ofList_keys_noNaN entries hk)
      (std_map.ofList_pairwise entries hk)

/-- C18, an instance: the map holding `Symbol("a") -> Int(1)`; inserting
`String("a") -> Int(2)` leaves it as it is. -/
theorem C18_map_keys_by_payload_witness :
    std_map.insert (Types.String [97]) (Types.Int 2)
        (std_map.ofList [(Types.Symbol [97], Types.Int 1)]) =
      std_map.ofList [(Types.Symbol [97], Types.Int 1)] :=
  (C18_map_keys_by_payload [97] (Types.Int 2) [(Types.Symbol [97], Types.Int 1)]).2.1
    (by simp [std_map.ofList, std_map.insert, std_map.entries, Rb_tree.insert_unique,
      Rb_tree.descend, Rb_tree.rebalance, Rb_tree.set_color, Rb_tree.toList, Map_t.keys])

/-- C18 as stated fails: a map can hold two keys that are `==` to each other.
The keys `(NaN 1)`, `(1 2)`, `(2 0)`, `(1 3)`, `(3 5)`, `(4 5)`, `(5 5)`, `(6 5)`
and `(2 0)` again, inserted in this order with the mapped values 0 to 8, leave
a map of nine entries in which the key `(2 0)` stands twice, under the mapped
values 2 and 8: the last insertion added an entry although the map contained
the key. -/
theorem C18_nan_key_two_equal_keys :
    (std_map.ofList
        [(Types.List [Types.Float double.nan, Types.Int 1], Types.Int 0),
         (Types.List [Types.Int 1, Types.Int 2], Types.Int 1),
         (Types.List [Types.Int 2, Types.Int 0], Types.Int 2),
         (Types.List [Types.Int 1, Types.Int 3], Types.Int 3),
         (Types.List [Types.Int 3, Types.Int 5], Types.Int 4),
         (Types.List [Types.Int 4, Types.Int 5], Types.Int 5),
         (Types.List [Types.Int 5, Types.Int 5], Types.Int 6),
         (Types.List [Types.Int 6, Types.Int 5], Types.Int 7),
         (Types.List [Types.Int 2, Types.Int 0], Types.Int 8)]).entries =
      [(Types.List [Types.Int 2, Types.Int 0], Types.Int 2),
       (Types.List [Types.Float double.nan, Types.Int 1], Types.Int 0),
       (Types.List [Types.Int 1, Types.Int 2], Types.Int 1),
       (Types.List [Types.Int 1, Types.Int 3], Types.Int 3),
       (Types.List [Types.Int 2, Types.Int 0], Types.Int 8),
       (Types.List [Types.Int 3, Types.Int 5], Types.Int 4),
       (Types.List [Types.Int 4, Types.Int 5], Types.Int 5),
       (Types.List [Types.Int 5, Types.Int 5], Types.Int 6),
       (Types.List [Types.Int 6, Types.Int 5], Types.Int 7)] ∧
    MalType.eq (Types.List [Types.Int 2, Types.Int 0])
      (Types.List [Types.Int 2, Types.Int 0]) = true := by
  refine ⟨?_, by decide⟩
  simp [std_map.ofList, std_map.insert, std_map.entries, Rb_tree.insert_unique,
    Rb_tree.descend, Rb_tree.rebalance, Rb_path.plug, Rb_tree.set_color,
    Rb_tree.toList, Rb_tree.is_red, MalType.lt_List_pair, MalType.lt_Int,
    MalType.lt_nan_Int]

end Mal
